import Mathlib

/-!
Verification of the vernier profiler core (`ext/vernier/vernier.cc`).

The C++ data structures and operations that the checked claims mention are
shallowly embedded below: pure structure is kept as Lean structures, mutation
becomes explicit state passing, `std::vector` becomes `List`, the
`unordered_map<Frame, int>` child maps become association lists with unique
keys (inserts happen only after a failed lookup), and the external inputs of
each operation (`TimeStamp::Now()`, `pthread_self()`, `get_native_thread_id()`,
the signal-captured `RawSample`) become explicit parameters.  `StackNode*`
pointers are encoded by position: `-1` designates `&root_stack_node` and
`i ≥ 0` designates `&stack_node_list[i]`; every field read the C code performs
through such a pointer is modelled as a field read of the node at that
position.
-/

namespace Vernier

/-- Modulus of `uint64_t`, used by the `TimeStamp` arithmetic. -/
def U64_MOD : Nat := 18446744073709551616

/-- Shallow embedding of `class TimeStamp`: a monotonic-clock instant as a
`uint64_t value_ns` count of nanoseconds. -/
structure TimeStamp where
  value_ns : Nat
deriving DecidableEq, Repr

/-- The `TimeStamp()` default constructor (zero nanoseconds). -/
def TimeStamp.mkZero : TimeStamp := ⟨0⟩

/-- Method `TimeStamp::zero()`. -/
def TimeStamp.isZero (t : TimeStamp) : Bool := t.value_ns == 0

/-- Operators `TimeStamp::operator+` / `operator+=`: wrapping `uint64_t`
addition. -/
def TimeStamp.add (a b : TimeStamp) : TimeStamp := ⟨(a.value_ns + b.value_ns) % U64_MOD⟩

/-- Operators `TimeStamp::operator-` / `operator-=`: subtraction that clamps
to zero on underflow. -/
def TimeStamp.sub (a b : TimeStamp) : TimeStamp :=
  ⟨if b.value_ns < a.value_ns then a.value_ns - b.value_ns else 0⟩

/-- Shallow embedding of `struct Frame`: the opaque CRuby `VALUE` handle
(modelled as a `Nat`) plus the line number; `operator==` compares both
fields. -/
structure Frame where
  frame : Nat
  line : Int
deriving DecidableEq, Repr

/-- Shallow embedding of `struct RawSample`.  The C buffer stores the walk
leaf-first and `frame(i)` reads entry `len - i - 1`; `frames` here lists
exactly the values `frame(0), …, frame(len-1)` (root to leaf), which is the
only way every reader (`stack_index`, `translate`) accesses the buffer.
`gc` is the "captured during garbage collection" flag. -/
structure RawSample where
  frames : List Frame
  gc : Bool
deriving DecidableEq, Repr

/-- Method `RawSample::size()` (the `len` field). -/
def RawSample.size (s : RawSample) : Nat := s.frames.length

/-- Method `RawSample::empty()`. -/
def RawSample.isEmpty (s : RawSample) : Bool := s.frames.isEmpty

/-- Shallow embedding of `FrameList::StackNode`. -/
structure StackNode where
  children : List (Frame × Int)
  frame : Frame
  parent : Int
  index : Int
deriving DecidableEq, Repr

/-- The `StackNode()` root constructor: `frame Frame{0,0}`, `index = -1`,
`parent = -1`, no children. -/
def StackNode.rootNode : StackNode := ⟨[], ⟨0, 0⟩, -1, -1⟩

/-- Shallow embedding of the stack-tree part of `struct FrameList`
(`root_stack_node` and `stack_node_list`).  The string/frame interning tables
and symbolication (`finalize`) are not touched by the checked claims. -/
structure FrameList where
  root_stack_node : StackNode
  stack_node_list : List StackNode
deriving DecidableEq, Repr

/-- A fresh `FrameList`: just the default-constructed root. -/
def FrameList.empty : FrameList := ⟨StackNode.rootNode, []⟩

/-- Lookup of `frame` in a node's `children` map (`children.find(frame)`). -/
def findChild (cs : List (Frame × Int)) (f : Frame) : Option Int :=
  (cs.find? (fun p => decide (p.1 = f))).map (fun p => p.2)

/-- The node a `StackNode*` designates: position `-1` is `&root_stack_node`,
position `i ≥ 0` is `&stack_node_list[i]`. -/
def FrameList.getNode (fl : FrameList) (i : Int) : StackNode :=
  if i < 0 then fl.root_stack_node else (fl.stack_node_list[i.toNat]?).getD StackNode.rootNode

/-- Insertion into a node's `children` map (`node->children[frame] = idx`,
with `frame` known absent). -/
def StackNode.addChild (n : StackNode) (f : Frame) (c : Int) : StackNode :=
  { n with children := n.children ++ [(f, c)] }

/-- Shallow embedding of `FrameList::next_stack_node`: return the existing
child of the node at position `i` for `f`, or insert a fresh node
(`emplace_back(frame, next_node_idx, node->index)` after
`node->children[frame] = next_node_idx`). -/
def FrameList.next_stack_node (fl : FrameList) (i : Int) (f : Frame) : FrameList × Int :=
  match findChild (fl.getNode i).children f with
  | some idx => (fl, idx)
  | none =>
      let next : Int := (fl.stack_node_list.length : Int)
      let parentIdx : Int := (fl.getNode i).index
      let fl1 : FrameList :=
        if i < 0 then
          { fl with root_stack_node := fl.root_stack_node.addChild f next }
        else
          { fl with stack_node_list := fl.stack_node_list.set i.toNat ((fl.getNode i).addChild f next) }
      ({ fl1 with stack_node_list := fl1.stack_node_list ++ [⟨[], f, parentIdx, next⟩] }, next)

/-- The loop of `FrameList::stack_index`: iterate `next_stack_node` over the
sample's frames starting from the node at position `i`. -/
def FrameList.walk (fl : FrameList) (i : Int) : List Frame → FrameList × Int
  | [] => (fl, i)
  | f :: rest =>
      let fj := fl.next_stack_node i f
      fj.1.walk fj.2 rest

/-- Shallow embedding of `FrameList::stack_index`; `none` models the
`throw std::runtime_error("empty stack")` branch, and the returned integer is
the final `node->index`. -/
def FrameList.stack_index (fl : FrameList) (stack : RawSample) : Option (FrameList × Int) :=
  if stack.frames.isEmpty then none
  else
    let r := fl.walk (-1) stack.frames
    some (r.1, (r.1.getNode r.2).index)

/-- Shallow embedding of `class SampleTranslator`.  The fixed arrays
`frames[MAX_LEN]` / `frame_indexes[MAX_LEN]` are never read at or past index
`len`, so the model keeps exactly the first `len` entries of each as lists
(`len = frames.length = frame_indexes.length`). -/
structure SampleTranslator where
  last_stack_index : Int
  frames : List Frame
  frame_indexes : List Int
deriving DecidableEq, Repr

/-- The `SampleTranslator()` constructor: `len = 0`, `last_stack_index = -1`. -/
def SampleTranslator.init : SampleTranslator := ⟨-1, [], []⟩

/-- The first loop of `SampleTranslator::translate`: how many leading frames
the cached previous sample shares with the new one (stop at the first
mismatch or at the shorter length). -/
def commonPrefixLen : List Frame → List Frame → Nat
  | a :: as, b :: bs => if a = b then commonPrefixLen as bs + 1 else 0
  | _, _ => 0

/-- The second loop of `SampleTranslator::translate`: walk the remaining
frames through `next_stack_node`, recording the `node->index` field after
each step (the values written into `frame_indexes`). -/
def walkRecord (fl : FrameList) (i : Int) : List Frame → FrameList × Int × List Int
  | [] => (fl, i, [])
  | f :: rest =>
      let fj := fl.next_stack_node i f
      let r := walkRecord fj.1 fj.2 rest
      (r.1, r.2.1, ((fj.1.getNode fj.2).index) :: r.2.2)

/-- Shallow embedding of `SampleTranslator::translate`: reuse the common
prefix `k` with the cached previous sample, restart from
`frame_indexes[k-1]` (or the root when `k = 0`), walk the remaining frames,
and refresh the cache.  Returns the updated translator, the updated tree and
the returned node index. -/
def SampleTranslator.translate (t : SampleTranslator) (fl : FrameList) (sample : RawSample) :
    SampleTranslator × FrameList × Int :=
  let k := commonPrefixLen t.frames sample.frames
  let startPos : Int := if k = 0 then -1 else t.frame_indexes.getD (k - 1) 0
  let r := walkRecord fl startPos (sample.frames.drop k)
  let idx : Int := (r.1.getNode r.2.1).index
  (⟨idx, t.frames.take k ++ sample.frames.drop k, t.frame_indexes.take k ++ r.2.2⟩, r.1, idx)

/-- The sample categories (`enum Category`). -/
inductive Category
  | CATEGORY_NORMAL
  | CATEGORY_IDLE
deriving DecidableEq, Repr

/-- Shallow embedding of `class SampleList`: five parallel vectors.  The C
`stacks` vector is named `stacksV` because `stacks` is a reserved token in
this Lean environment. -/
structure SampleList where
  stacksV : List Int
  timestamps : List TimeStamp
  threads : List Nat
  categories : List Category
  weights : List Int
deriving DecidableEq, Repr

/-- A freshly constructed, empty `SampleList`. -/
def SampleList.emptyList : SampleList := ⟨[], [], [], [], []⟩

/-- Method `SampleList::size()`. -/
def SampleList.size (sl : SampleList) : Nat := sl.stacksV.length

/-- Increment of the last weight (`weights.back() += 1`). -/
def bumpLast : List Int → List Int
  | [] => []
  | [w] => [w + 1]
  | w :: ws => w :: bumpLast ws

/-- Shallow embedding of `SampleList::record_sample`: when the new sample's
(stack, thread, category) triple matches the last entry's, bump its weight
(timestamps are not compared); otherwise push a fresh entry of weight 1. -/
def SampleList.record_sample (sl : SampleList) (stack_index : Int) (time : TimeStamp)
    (thread_id : Nat) (category : Category) : SampleList :=
  if sl.stacksV ≠ [] ∧ sl.stacksV.getLast? = some stack_index ∧
      sl.threads.getLast? = some thread_id ∧ sl.categories.getLast? = some category then
    { sl with weights := bumpLast sl.weights }
  else
    ⟨sl.stacksV ++ [stack_index], sl.timestamps ++ [time], sl.threads ++ [thread_id],
      sl.categories ++ [category], sl.weights ++ [1]⟩

/-- The marker kinds (`Marker::Type`). -/
inductive MarkerType
  | MARKER_GVL_THREAD_STARTED
  | MARKER_GVL_THREAD_EXITED
  | MARKER_GC_START
  | MARKER_GC_END_MARK
  | MARKER_GC_END_SWEEP
  | MARKER_GC_ENTER
  | MARKER_GC_EXIT
  | MARKER_GC_PAUSE
  | MARKER_THREAD_RUNNING
  | MARKER_THREAD_STALLED
  | MARKER_THREAD_SUSPENDED
deriving DecidableEq, Repr

/-- The marker phases (`Marker::Phase`). -/
inductive MarkerPhase
  | INSTANT
  | INTERVAL
  | INTERVAL_START
  | INTERVAL_END
deriving DecidableEq, Repr

/-- Shallow embedding of `class Marker`. -/
structure Marker where
  type : MarkerType
  phase : MarkerPhase
  timestamp : TimeStamp
  finish : TimeStamp
  stack_index : Int
deriving DecidableEq, Repr

/-- Shallow embedding of `MarkerTable::record_interval` (append under the
table-local mutex). -/
def recordInterval (list : List Marker) (type : MarkerType) (fromTs toTs : TimeStamp)
    (stack_index : Int) : List Marker :=
  list ++ [⟨type, MarkerPhase.INTERVAL, fromTs, toTs, stack_index⟩]

/-- Shallow embedding of `MarkerTable::record` (an instantaneous marker; the
`TimeStamp::Now()` it reads is passed in as `now`). -/
def recordInstant (list : List Marker) (type : MarkerType) (now : TimeStamp)
    (stack_index : Int) : List Marker :=
  list ++ [⟨type, MarkerPhase.INSTANT, now, TimeStamp.mkZero, stack_index⟩]

/-- The scheduling states of an observed thread (`Thread::State`). -/
inductive ThreadState
  | STARTED
  | RUNNING
  | READY
  | SUSPENDED
  | STOPPED
deriving DecidableEq, Repr

/-- Shallow embedding of `class Thread`.  The GC/VALUE plumbing
(`ruby_thread_id`, the unused `name` string, `mark`) is omitted; `markers`
inlines the thread's heap-allocated `MarkerTable` as its marker list. -/
structure Thread where
  samples : SampleList
  ruby_thread : Nat
  pthread_id : Nat
  native_tid : Nat
  state : ThreadState
  state_changed_at : TimeStamp
  started_at : TimeStamp
  stopped_at : TimeStamp
  stack_on_suspend_idx : Int
  translator : SampleTranslator
  markers : List Marker
deriving DecidableEq, Repr

/-- The `Thread(state, pthread_id, ruby_thread)` constructor; `now` stands for
its `TimeStamp::Now()` call and `self_tid` for `get_native_thread_id()`. -/
def Thread.mkNew (state : ThreadState) (pthread_id : Nat) (ruby_thread : Nat)
    (now : TimeStamp) (self_tid : Nat) : Thread :=
  { samples := SampleList.emptyList
    ruby_thread := ruby_thread
    pthread_id := pthread_id
    native_tid := self_tid
    state := state
    state_changed_at := now
    started_at := now
    stopped_at := TimeStamp.mkZero
    stack_on_suspend_idx := -1
    translator := SampleTranslator.init
    markers :=
      if state = ThreadState.STARTED then
        recordInstant [] MarkerType.MARKER_GVL_THREAD_STARTED now (-1)
      else [] }

/-- Shallow embedding of `Thread::set_state`.  `now` stands for the
`TimeStamp::Now()` calls of this activation (the code reads the clock again
inside `MarkerTable::record`, a nanosecond-level detail no claim depends on),
`self_pthread` for `pthread_self()` and `self_tid` for
`get_native_thread_id()`.  The debug asserts on legal source states are not
modelled; theorems needing a legal source state carry it as a hypothesis. -/
def Thread.set_state (t : Thread) (new_state : ThreadState) (now : TimeStamp)
    (self_pthread self_tid : Nat) : Thread :=
  if t.state = ThreadState.STOPPED then t
  else if new_state = ThreadState.SUSPENDED ∧ t.state = new_state then t
  else
    let fromTs := t.state_changed_at
    let t1 := if t.started_at.isZero then { t with started_at := now } else t
    match new_state with
    | ThreadState.STARTED =>
        { t1 with markers := recordInstant t1.markers MarkerType.MARKER_GVL_THREAD_STARTED now (-1) }
    | ThreadState.RUNNING =>
        let t2 := { t1 with pthread_id := self_pthread, native_tid := self_tid }
        let t3 :=
          if fromTs ≠ now then
            { t2 with markers := recordInterval t2.markers MarkerType.MARKER_THREAD_STALLED fromTs now (-1) }
          else t2
        { t3 with state := ThreadState.RUNNING, state_changed_at := now }
    | ThreadState.READY =>
        let t2 :=
          if t1.state = ThreadState.SUSPENDED then
            { t1 with markers := recordInterval t1.markers MarkerType.MARKER_THREAD_SUSPENDED fromTs now t1.stack_on_suspend_idx }
          else if t1.state = ThreadState.RUNNING then
            { t1 with markers := recordInterval t1.markers MarkerType.MARKER_THREAD_RUNNING fromTs now (-1) }
          else t1
        { t2 with state := ThreadState.READY, state_changed_at := now }
    | ThreadState.SUSPENDED =>
        { t1 with
          markers := recordInterval t1.markers MarkerType.MARKER_THREAD_RUNNING fromTs now (-1)
          state := ThreadState.SUSPENDED
          state_changed_at := now }
    | ThreadState.STOPPED =>
        { t1 with
          markers :=
            recordInstant
              (recordInterval t1.markers MarkerType.MARKER_THREAD_RUNNING fromTs now (-1))
              MarkerType.MARKER_GVL_THREAD_EXITED now (-1)
          stopped_at := now
          state := ThreadState.STOPPED
          state_changed_at := now }

/-- The matched-thread body of `ThreadTable::set_state`: on a SUSPENDED
notification first capture-and-translate (the freshly captured
`RawSample sample` is passed in as `captured`), then `Thread::set_state`,
then publish the native ids when RUNNING or clear them otherwise. -/
def ThreadTable.apply_state (fl : FrameList) (t : Thread) (new_state : ThreadState)
    (captured : RawSample) (now : TimeStamp) (self_pthread self_tid : Nat) :
    FrameList × Thread :=
  let p :=
    if new_state = ThreadState.SUSPENDED then
      let r := t.translator.translate fl captured
      (r.2.1, { t with translator := r.1, stack_on_suspend_idx := r.2.2 })
    else (fl, t)
  let t2 := (p.2).set_state new_state now self_pthread self_tid
  let t3 :=
    if t2.state = ThreadState.RUNNING then
      { t2 with pthread_id := self_pthread, native_tid := self_tid }
    else
      { t2 with pthread_id := 0, native_tid := 0 }
  (p.1, t3)

/-- The search loop of `ThreadTable::set_state`: update the first thread whose
`ruby_thread` equals `th` (`thread_equal`), or report that none matched. -/
def setStateGo (fl : FrameList) (new_state : ThreadState) (th : Nat) (captured : RawSample)
    (now : TimeStamp) (self_pthread self_tid : Nat) :
    List Thread → Option (FrameList × List Thread)
  | [] => none
  | t :: rest =>
      if t.ruby_thread = th then
        let r := ThreadTable.apply_state fl t new_state captured now self_pthread self_tid
        some (r.1, r.2 :: rest)
      else
        match setStateGo fl new_state th captured now self_pthread self_tid rest with
        | some r => some (r.1, t :: r.2)
        | none => none

/-- Shallow embedding of `ThreadTable::set_state` (the private method behind
`started`/`ready`/`resumed`/`suspended`/`stopped`): update the first matching
thread, else `emplace_back` a new `Thread`. -/
def ThreadTable.set_state (fl : FrameList) (threads : List Thread) (new_state : ThreadState)
    (th : Nat) (captured : RawSample) (now : TimeStamp) (self_pthread self_tid : Nat) :
    FrameList × List Thread :=
  match setStateGo fl new_state th captured now self_pthread self_tid threads with
  | some r => r
  | none => (fl, threads ++ [Thread.mkNew new_state self_pthread th now self_tid])

/-- Shallow embedding of `TimeCollector::record_sample`: empty samples are
dropped; otherwise translate through the thread's cursor and record into its
`SampleList`. -/
def TimeCollector.record_sample (fl : FrameList) (sample : RawSample) (time : TimeStamp)
    (thread : Thread) (category : Category) : FrameList × Thread :=
  if sample.frames.isEmpty then (fl, thread)
  else
    let r := thread.translator.translate fl sample
    (r.2.1,
      { thread with
        translator := r.1
        samples := thread.samples.record_sample r.2.2 time thread.native_tid category })

/-- One thread's slice of the `TimeCollector::sample_thread_run` loop body.
For a RUNNING thread `captured` is the sample the synchronous signal capture
(`GlobalSignalHandler::record_sample`) produced; the other branches never
look at it (no capture is issued for them). -/
def TimeCollector.sample_thread_iteration (fl : FrameList) (thread : Thread)
    (captured : RawSample) (sample_start : TimeStamp) : FrameList × Thread :=
  if thread.state = ThreadState.RUNNING then
    if captured.gc then (fl, thread)
    else TimeCollector.record_sample fl captured sample_start thread Category.CATEGORY_NORMAL
  else if thread.state = ThreadState.SUSPENDED then
    (fl,
      { thread with
        samples := thread.samples.record_sample thread.stack_on_suspend_idx sample_start
          thread.native_tid Category.CATEGORY_IDLE })
  else (fl, thread)

/-- The schedule update at the tail of each `sample_thread_run` iteration:
`next_sample_schedule += interval; if (next_sample_schedule < sample_complete)
next_sample_schedule = sample_complete + interval;`. -/
def TimeCollector.next_schedule (next_sample_schedule interval sample_complete : TimeStamp) :
    TimeStamp :=
  let n := next_sample_schedule.add interval
  if n.value_ns < sample_complete.value_ns then sample_complete.add interval else n

/-- Shallow embedding of the `BaseCollector` state the start/stop protocol
touches. -/
structure BaseCollector where
  running : Bool
  started_at : TimeStamp
deriving DecidableEq, Repr

/-- Shallow embedding of `BaseCollector::start`: fail (returning `false` and
changing nothing) when already running, else record the start time and mark
running. -/
def BaseCollector.start (c : BaseCollector) (now : TimeStamp) : Bool × BaseCollector :=
  if c.running then (false, c)
  else (true, { c with started_at := now, running := true })

/-- Shallow embedding of `BaseCollector::stop`; `some msg` models the
`rb_raise(rb_eRuntimeError, "collector not running")`, which leaves the
collector untouched. -/
def BaseCollector.stop (c : BaseCollector) : Option String × BaseCollector :=
  if c.running = false then (some "collector not running", c)
  else (none, { c with running := false })

/-- Shallow embedding of `collector_start`: raise "already running" when
`BaseCollector::start` reports failure. -/
def collector_start (c : BaseCollector) (now : TimeStamp) : Option String × BaseCollector :=
  let r := c.start now
  if r.1 then (none, r.2) else (some "already running", r.2)

/-- The node stored at list position `p` (`stack_node_list[p]`). -/
def nodeAt (fl : FrameList) (p : Nat) : StackNode :=
  (fl.stack_node_list[p]?).getD StackNode.rootNode

/-- A position a `StackNode*` may legally designate: the root or a slot of
`stack_node_list`. -/
def validPos (fl : FrameList) (i : Int) : Prop :=
  i = -1 ∨ (0 ≤ i ∧ i.toNat < fl.stack_node_list.length)

/-- Consistency of one node's `children` map: every entry points at an
existing node whose `frame` is the key and whose `parent` is this node's
position. -/
def childOk (fl : FrameList) (n : StackNode) (i : Int) : Prop :=
  ∀ fc ∈ n.children,
    0 ≤ fc.2 ∧ fc.2 < (fl.stack_node_list.length : Int) ∧
      (fl.getNode fc.2).frame = fc.1 ∧ (fl.getNode fc.2).parent = i

/-- Well-formedness of the stack tree, as `FrameList` maintains it: each
node's `index` field equals its list position, all child maps are consistent,
and parents strictly precede their children (the root acting as position
`-1`). -/
def WF (fl : FrameList) : Prop :=
  fl.root_stack_node.index = -1 ∧
  (∀ p, p < fl.stack_node_list.length → (nodeAt fl p).index = (p : Int)) ∧
  childOk fl fl.root_stack_node (-1) ∧
  (∀ p, p < fl.stack_node_list.length → childOk fl (nodeAt fl p) (p : Int)) ∧
  (∀ p, p < fl.stack_node_list.length →
    -1 ≤ (nodeAt fl p).parent ∧ (nodeAt fl p).parent < (p : Int))

/-- Pure (insertion-free) walk of the tree: the position reached from the node
at position `i` by following `frames` through the child maps, if that path
already exists. -/
def lookupFrom (fl : FrameList) (i : Int) : List Frame → Option Int
  | [] => some i
  | f :: rest =>
      match findChild (fl.getNode i).children f with
      | some j => lookupFrom fl j rest
      | none => none

/-- The cache consistency `SampleTranslator` maintains against the shared
tree: the two caches have equal length and `frame_indexes[k]` is the node the
pure walk of the cached first `k+1` frames reaches from the root. -/
def TransInv (t : SampleTranslator) (fl : FrameList) : Prop :=
  t.frame_indexes.length = t.frames.length ∧
  ∀ k, k < t.frames.length →
    lookupFrom fl (-1) (t.frames.take (k + 1)) = t.frame_indexes[k]?

/-- Fuel-indexed root-to-node path readback (follow `parent` links, emit
`frame` fields leaf-last). -/
def pathToAux (fl : FrameList) : Nat → Int → List Frame
  | 0, _ => []
  | fuel + 1, i =>
      if i < 0 then []
      else pathToAux fl fuel (fl.getNode i).parent ++ [(fl.getNode i).frame]

/-- The root-to-node frame path of the node at position `i`. -/
def FrameList.pathTo (fl : FrameList) (i : Int) : List Frame :=
  pathToAux fl (i.toNat + 1) i

/-- One tree extends another: it is at least as long, existing nodes keep
their `frame`/`parent`/`index` fields, and existing child-map entries keep
resolving to the same value. -/
def Extends (fl fl' : FrameList) : Prop :=
  fl.stack_node_list.length ≤ fl'.stack_node_list.length ∧
  fl'.root_stack_node.index = fl.root_stack_node.index ∧
  (∀ p, p < fl.stack_node_list.length →
    (nodeAt fl' p).frame = (nodeAt fl p).frame ∧
    (nodeAt fl' p).parent = (nodeAt fl p).parent ∧
    (nodeAt fl' p).index = (nodeAt fl p).index) ∧
  (∀ i f j, findChild (fl.getNode i).children f = some j →
    findChild (fl'.getNode i).children f = some j)

/-- A capture session against one shared tree: intern each stack in order via
`FrameList::stack_index`, collecting the returned node indices; `none` if any
stack is empty. -/
def internSession (fl : FrameList) : List RawSample → Option (FrameList × List Int)
  | [] => some (fl, [])
  | s :: ss =>
      match fl.stack_index s with
      | none => none
      | some r =>
          match internSession r.1 ss with
          | none => none
          | some r2 => some (r2.1, r.2 :: r2.2)

/-- Concrete two-sample session used by witnesses: `[a, b]` then `[a, c]`. -/
def witnessSamples : List RawSample :=
  [⟨[⟨1, 0⟩, ⟨2, 0⟩], false⟩, ⟨[⟨1, 0⟩, ⟨3, 0⟩], false⟩]

/-- The tree `witnessSamples` produces from a fresh `FrameList` (checked by
evaluation in the witness proofs). -/
def witnessTree : FrameList :=
  ⟨⟨[(⟨1, 0⟩, 0)], ⟨0, 0⟩, -1, -1⟩,
   [⟨[(⟨2, 0⟩, 1), (⟨3, 0⟩, 2)], ⟨1, 0⟩, -1, 0⟩,
    ⟨[], ⟨2, 0⟩, 0, 1⟩, ⟨[], ⟨3, 0⟩, 0, 2⟩]⟩

/-- A concrete RUNNING thread used by witnesses and counterexamples. -/
def runningThread : Thread :=
  ⟨SampleList.emptyList, 1, 7, 7, ThreadState.RUNNING, ⟨0⟩, ⟨0⟩, ⟨0⟩, -1,
   SampleTranslator.init, []⟩

/-- A concrete STOPPED thread used by witnesses and counterexamples. -/
def stoppedThread : Thread :=
  ⟨SampleList.emptyList, 1, 0, 0, ThreadState.STOPPED, ⟨2⟩, ⟨1⟩, ⟨2⟩, -1,
   SampleTranslator.init, []⟩

/-- A concrete SUSPENDED thread (with no capturable suspend stack) used by
witnesses. -/
def suspendedThread : Thread :=
  ⟨SampleList.emptyList, 1, 0, 0, ThreadState.SUSPENDED, ⟨2⟩, ⟨1⟩, ⟨0⟩, -1,
   SampleTranslator.init, []⟩

instance (fl : FrameList) (i : Int) : Decidable (validPos fl i) := by
  unfold validPos
  exact inferInstance

instance (fl : FrameList) (n : StackNode) (i : Int) : Decidable (childOk fl n i) := by
  unfold childOk
  exact inferInstance

instance (fl : FrameList) : Decidable (WF fl) := by
  unfold WF
  exact inferInstance

instance (t : SampleTranslator) (fl : FrameList) : Decidable (TransInv t fl) := by
  unfold TransInv
  exact inferInstance

/-! Basic facts about node addressing. -/

lemma getNode_neg (fl : FrameList) (i : Int) (h : i < 0) : fl.getNode i = fl.root_stack_node := by
  simp [FrameList.getNode, h]

lemma getNode_nonneg (fl : FrameList) (i : Int) (h : 0 ≤ i) :
    fl.getNode i = nodeAt fl i.toNat := by
  simp [FrameList.getNode, nodeAt, if_neg (not_lt.2 h)]

lemma getNode_oob (fl : FrameList) (i : Int) (h : 0 ≤ i)
    (h2 : fl.stack_node_list.length ≤ i.toNat) : fl.getNode i = StackNode.rootNode := by
  simp [FrameList.getNode, if_neg (not_lt.2 h), List.getElem?_eq_none h2]

lemma findChild_append_some (cs : List (Frame × Int)) (x : Frame × Int) (f : Frame) (j : Int)
    (h : findChild cs f = some j) : findChild (cs ++ [x]) f = some j := by
  unfold findChild at h ⊢
  rw [List.find?_append]
  cases hfind : cs.find? (fun p => decide (p.1 = f)) with
  | none => rw [hfind] at h; simp at h
  | some v => rw [hfind] at h; simpa using h

lemma findChild_append_self (cs : List (Frame × Int)) (f : Frame) (c : Int)
    (h : findChild cs f = none) : findChild (cs ++ [(f, c)]) f = some c := by
  unfold findChild at h ⊢
  rw [List.find?_append]
  cases hfind : cs.find? (fun p => decide (p.1 = f)) with
  | some v => rw [hfind] at h; simp at h
  | none => simp [hfind, List.find?]

/-! The two outcomes of `next_stack_node`. -/

lemma next_found (fl : FrameList) (i : Int) (f : Frame) (j : Int)
    (h : findChild (fl.getNode i).children f = some j) :
    fl.next_stack_node i f = (fl, j) := by
  unfold FrameList.next_stack_node
  rw [h]

/-- The inserting branch of `next_stack_node`, written out, when the source
node is the root. -/
lemma insert_eq_neg (fl : FrameList) (i : Int) (f : Frame) (hi : i < 0)
    (h : findChild (fl.getNode i).children f = none) :
    fl.next_stack_node i f =
      ({ root_stack_node := fl.root_stack_node.addChild f (fl.stack_node_list.length : Int),
         stack_node_list := fl.stack_node_list ++
           [⟨[], f, (fl.getNode i).index, (fl.stack_node_list.length : Int)⟩] },
       (fl.stack_node_list.length : Int)) := by
  unfold FrameList.next_stack_node
  rw [h]
  simp [if_pos hi]

/-- The inserting branch of `next_stack_node`, written out, when the source
node is a list slot. -/
lemma insert_eq_nonneg (fl : FrameList) (i : Int) (f : Frame) (hi : ¬ i < 0)
    (h : findChild (fl.getNode i).children f = none) :
    fl.next_stack_node i f =
      ({ root_stack_node := fl.root_stack_node,
         stack_node_list :=
           (fl.stack_node_list.set i.toNat
             ((fl.getNode i).addChild f (fl.stack_node_list.length : Int))) ++
           [⟨[], f, (fl.getNode i).index, (fl.stack_node_list.length : Int)⟩] },
       (fl.stack_node_list.length : Int)) := by
  unfold FrameList.next_stack_node
  rw [h]
  simp [if_neg hi]

lemma insert_ret (fl : FrameList) (i : Int) (f : Frame)
    (h : findChild (fl.getNode i).children f = none) :
    (fl.next_stack_node i f).2 = (fl.stack_node_list.length : Int) := by
  by_cases hi : i < 0
  · rw [insert_eq_neg fl i f hi h]
  · rw [insert_eq_nonneg fl i f hi h]

lemma insert_len (fl : FrameList) (i : Int) (f : Frame)
    (h : findChild (fl.getNode i).children f = none) :
    (fl.next_stack_node i f).1.stack_node_list.length = fl.stack_node_list.length + 1 := by
  by_cases hi : i < 0
  · rw [insert_eq_neg fl i f hi h]; simp
  · rw [insert_eq_nonneg fl i f hi h]; simp

lemma insert_root_index (fl : FrameList) (i : Int) (f : Frame)
    (h : findChild (fl.getNode i).children f = none) :
    (fl.next_stack_node i f).1.root_stack_node.index = fl.root_stack_node.index := by
  by_cases hi : i < 0
  · rw [insert_eq_neg fl i f hi h]; simp [StackNode.addChild]
  · rw [insert_eq_nonneg fl i f hi h]

lemma insert_nodeAt_new (fl : FrameList) (i : Int) (f : Frame)
    (h : findChild (fl.getNode i).children f = none) :
    nodeAt (fl.next_stack_node i f).1 fl.stack_node_list.length =
      ⟨[], f, (fl.getNode i).index, (fl.stack_node_list.length : Int)⟩ := by
  by_cases hi : i < 0
  · rw [insert_eq_neg fl i f hi h]
    simp [nodeAt, List.getElem?_concat_length]
  · rw [insert_eq_nonneg fl i f hi h]
    simp only [nodeAt]
    rw [List.getElem?_append_right (by simp)]
    simp

lemma insert_nodeAt_old (fl : FrameList) (i : Int) (f : Frame) (p : Nat)
    (hp : p < fl.stack_node_list.length)
    (h : findChild (fl.getNode i).children f = none) :
    (nodeAt (fl.next_stack_node i f).1 p).frame = (nodeAt fl p).frame ∧
    (nodeAt (fl.next_stack_node i f).1 p).parent = (nodeAt fl p).parent ∧
    (nodeAt (fl.next_stack_node i f).1 p).index = (nodeAt fl p).index := by
  by_cases hi : i < 0
  · rw [insert_eq_neg fl i f hi h]
    simp only [nodeAt]
    rw [List.getElem?_append_left hp]
    exact ⟨rfl, rfl, rfl⟩
  · rw [insert_eq_nonneg fl i f hi h]
    simp only [nodeAt]
    rw [List.getElem?_append_left (by simpa using hp)]
    by_cases hpi : p = i.toNat
    · subst hpi
      rw [List.getElem?_set_self' ]
      rw [List.getElem?_eq_getElem hp]
      rw [getNode_nonneg _ _ (by omega)]
      simp [nodeAt, List.getElem?_eq_getElem hp, StackNode.addChild]
    · rw [List.getElem?_set_ne (by omega)]
      exact ⟨rfl, rfl, rfl⟩

lemma insert_children (fl : FrameList) (i : Int) (f : Frame) (i' : Int)
    (hv : validPos fl i)
    (h : findChild (fl.getNode i).children f = none) :
    ((fl.next_stack_node i f).1.getNode i').children =
      if 0 ≤ i' ∧ i'.toNat = fl.stack_node_list.length then []
      else if (i < 0 ∧ i' < 0) ∨ (0 ≤ i ∧ i' = i) then
        (fl.getNode i).children ++ [(f, (fl.stack_node_list.length : Int))]
      else (fl.getNode i').children := by
  by_cases hi : i < 0
  · rw [insert_eq_neg fl i f hi h]
    by_cases hneg : i' < 0
    · rw [if_neg (by rintro ⟨h1, _⟩; omega), if_pos (Or.inl ⟨hi, hneg⟩)]
      rw [getNode_neg _ _ hneg, getNode_neg _ _ hi]
      simp [FrameList.getNode, StackNode.addChild]
    · push_neg at hneg
      rw [getNode_nonneg _ _ hneg]
      by_cases hnew : i'.toNat = fl.stack_node_list.length
      · rw [if_pos ⟨hneg, hnew⟩]
        simp only [nodeAt, hnew]
        simp [List.getElem?_concat_length]
      · rw [if_neg (by rintro ⟨_, hc⟩; exact hnew hc)]
        rw [if_neg (by rintro (⟨_, hc⟩ | ⟨hc, _⟩) <;> omega)]
        rw [getNode_nonneg _ _ hneg]
        simp only [nodeAt]
        by_cases hlt' : i'.toNat < fl.stack_node_list.length
        · rw [List.getElem?_append_left hlt']
        · rw [List.getElem?_eq_none (by simp; omega), List.getElem?_eq_none (by omega)]
  · rcases hv with hroot | ⟨hge, hlt⟩
    · omega
    rw [insert_eq_nonneg fl i f hi h]
    by_cases hneg : i' < 0
    · rw [if_neg (by rintro ⟨h1, _⟩; omega), if_neg (by rintro (⟨hc, _⟩ | ⟨_, hc⟩) <;> omega)]
      rw [getNode_neg _ _ hneg, getNode_neg _ _ hneg]
    · push_neg at hneg
      rw [getNode_nonneg _ _ hneg, getNode_nonneg _ _ hneg]
      by_cases hnew : i'.toNat = fl.stack_node_list.length
      · rw [if_pos ⟨hneg, hnew⟩]
        simp only [nodeAt, hnew]
        rw [List.getElem?_append_right (by simp), List.length_set]
        simp
      · rw [if_neg (by rintro ⟨_, hc⟩; exact hnew hc)]
        by_cases heq : i' = i
        · subst heq
          rw [if_pos (Or.inr ⟨hge, rfl⟩)]
          simp only [nodeAt]
          rw [List.getElem?_append_left (by simpa using hlt)]
          rw [List.getElem?_set_self' ]
          rw [List.getElem?_eq_getElem hlt]
          rw [getNode_nonneg _ _ hge]
          simp [nodeAt, List.getElem?_eq_getElem hlt, StackNode.addChild]
        · rw [if_neg (by rintro (⟨hc, _⟩ | ⟨_, hc⟩); omega; exact heq hc)]
          simp only [nodeAt]
          by_cases hlt' : i'.toNat < fl.stack_node_list.length
          · rw [List.getElem?_append_left (by simpa using hlt')]
            rw [List.getElem?_set_ne (by omega)]
          · rw [List.getElem?_eq_none (by simp; omega), List.getElem?_eq_none (by omega)]

/-! Extension order between trees. -/

lemma extends_refl (fl : FrameList) : Extends fl fl :=
  ⟨le_refl _, rfl, fun _ _ => ⟨rfl, rfl, rfl⟩, fun _ _ _ h => h⟩

lemma extends_trans {a b c : FrameList} (h1 : Extends a b) (h2 : Extends b c) : Extends a c := by
  obtain ⟨l1, r1, n1, c1⟩ := h1
  obtain ⟨l2, r2, n2, c2⟩ := h2
  refine ⟨le_trans l1 l2, r2.trans r1, ?_, fun i f j h => c2 i f j (c1 i f j h)⟩
  intro p hp
  obtain ⟨f1, p1, i1⟩ := n1 p hp
  obtain ⟨f2, p2, i2⟩ := n2 p (lt_of_lt_of_le hp l1)
  exact ⟨f2.trans f1, p2.trans p1, i2.trans i1⟩

lemma next_extends (fl : FrameList) (i : Int) (f : Frame) (hv : validPos fl i) :
    Extends fl (fl.next_stack_node i f).1 := by
  cases hfc : findChild (fl.getNode i).children f with
  | some j => rw [next_found fl i f j hfc]; exact extends_refl fl
  | none =>
      refine ⟨?_, insert_root_index fl i f hfc, fun p hp => insert_nodeAt_old fl i f p hp hfc, ?_⟩
      · rw [insert_len fl i f hfc]; omega
      · intro i' f' j' hfind
        rw [insert_children fl i f i' hv hfc]
        by_cases hnew : 0 ≤ i' ∧ i'.toNat = fl.stack_node_list.length
        · rcases hnew with ⟨hge', heq'⟩
          rw [getNode_oob fl i' hge' (le_of_eq heq'.symm)] at hfind
          simp [findChild, StackNode.rootNode] at hfind
        · rw [if_neg hnew]
          by_cases hsame : (i < 0 ∧ i' < 0) ∨ (0 ≤ i ∧ i' = i)
          · rw [if_pos hsame]
            have : fl.getNode i' = fl.getNode i := by
              rcases hsame with ⟨h1, h2⟩ | ⟨h1, h2⟩
              · rw [getNode_neg _ _ h1, getNode_neg _ _ h2]
              · rw [h2]
            rw [this] at hfind
            exact findChild_append_some _ _ _ _ hfind
          · rw [if_neg hsame]; exact hfind

lemma findChild_mem (cs : List (Frame × Int)) (f : Frame) (j : Int)
    (h : findChild cs f = some j) : (f, j) ∈ cs := by
  unfold findChild at h
  cases hfind : cs.find? (fun p => decide (p.1 = f)) with
  | none => rw [hfind] at h; simp at h
  | some v =>
      rw [hfind] at h
      simp at h
      have hmem := List.mem_of_find?_eq_some hfind
      have hkey := List.find?_some hfind
      simp at hkey
      have : v = (f, j) := by
        cases v
        simp at hkey h
        simp [hkey, h]
      rw [this] at hmem
      exact hmem

lemma childOk_of_valid (fl : FrameList) (i : Int) (hwf : WF fl) (hv : validPos fl i) :
    childOk fl (fl.getNode i) i := by
  rcases hv with hroot | ⟨hge, hlt⟩
  · subst hroot
    rw [getNode_neg _ _ (by norm_num)]
    exact hwf.2.2.1
  · rw [getNode_nonneg _ _ hge]
    have := hwf.2.2.2.1 i.toNat hlt
    rwa [Int.toNat_of_nonneg hge] at this

lemma index_of_valid (fl : FrameList) (i : Int) (hwf : WF fl) (hv : validPos fl i) :
    (fl.getNode i).index = i := by
  rcases hv with hroot | ⟨hge, hlt⟩
  · subst hroot; rw [getNode_neg _ _ (by norm_num)]; exact hwf.1
  · rw [getNode_nonneg _ _ hge]
    have := hwf.2.1 i.toNat hlt
    rwa [Int.toNat_of_nonneg hge] at this

lemma getNode_natCast (fl : FrameList) (p : Nat) : fl.getNode (p : Int) = nodeAt fl p := by
  rw [getNode_nonneg _ _ (by positivity)]
  simp

lemma childOk_mono {fl fl' : FrameList} (n : StackNode) (i : Int)
    (hext : Extends fl fl') (hok : childOk fl n i) : childOk fl' n i := by
  intro fc hfc
  obtain ⟨h1, h2, h3, h4⟩ := hok fc hfc
  have hle := hext.1
  have hlt : fc.2.toNat < fl.stack_node_list.length := by omega
  have hpres := hext.2.2.1 fc.2.toNat hlt
  rw [getNode_nonneg _ _ h1] at h3 h4
  rw [getNode_nonneg _ _ h1]
  refine ⟨h1, by omega, ?_, ?_⟩
  · rw [hpres.1]; exact h3
  · rw [hpres.2.1]; exact h4

/-- Combined step facts for `next_stack_node` at a valid position of a
well-formed tree. -/
lemma next_main (fl : FrameList) (i : Int) (f : Frame) (hwf : WF fl) (hv : validPos fl i) :
    WF (fl.next_stack_node i f).1 ∧
    Extends fl (fl.next_stack_node i f).1 ∧
    validPos (fl.next_stack_node i f).1 (fl.next_stack_node i f).2 ∧
    0 ≤ (fl.next_stack_node i f).2 ∧
    i < (fl.next_stack_node i f).2 ∧
    ((fl.next_stack_node i f).1.getNode (fl.next_stack_node i f).2).frame = f ∧
    ((fl.next_stack_node i f).1.getNode (fl.next_stack_node i f).2).parent = i := by
  cases hfc : findChild (fl.getNode i).children f with
  | some j =>
      rw [next_found fl i f j hfc]
      have hok := childOk_of_valid fl i hwf hv (f, j) (findChild_mem _ _ _ hfc)
      obtain ⟨h1, h2, h3, h4⟩ := hok
      dsimp only at h1 h2 h3 h4
      have hjlt : j.toNat < fl.stack_node_list.length := by omega
      have hparent := (hwf.2.2.2.2 j.toNat hjlt).2
      rw [Int.toNat_of_nonneg h1] at hparent
      rw [getNode_nonneg _ _ h1] at h4
      have hij : i < j := by omega
      refine ⟨hwf, extends_refl fl, Or.inr ⟨h1, by exact hjlt⟩, h1, hij, h3, ?_⟩
      show (fl.getNode j).parent = i
      rw [getNode_nonneg _ _ h1]
      exact h4
  | none =>
      have hret := insert_ret fl i f hfc
      have hlen := insert_len fl i f hfc
      have hrooti := insert_root_index fl i f hfc
      have hnew := insert_nodeAt_new fl i f hfc
      have hold := fun p hp => insert_nodeAt_old fl i f p hp hfc
      have hch := fun i' => insert_children fl i f i' hv hfc
      have hilt : i < (fl.stack_node_list.length : Int) := by
        rcases hv with hroot | ⟨hge, hlt⟩
        · omega
        · omega
      have hext : Extends fl (fl.next_stack_node i f).1 := by
        refine ⟨by omega, hrooti, hold, ?_⟩
        intro i' f' j' hfind
        rw [hch i']
        by_cases hnew' : 0 ≤ i' ∧ i'.toNat = fl.stack_node_list.length
        · rcases hnew' with ⟨hge', heq'⟩
          rw [getNode_oob fl i' hge' (le_of_eq heq'.symm)] at hfind
          simp [findChild, StackNode.rootNode] at hfind
        · rw [if_neg hnew']
          by_cases hsame : (i < 0 ∧ i' < 0) ∨ (0 ≤ i ∧ i' = i)
          · rw [if_pos hsame]
            have : fl.getNode i' = fl.getNode i := by
              rcases hsame with ⟨h1, h2⟩ | ⟨h1, h2⟩
              · rw [getNode_neg _ _ h1, getNode_neg _ _ h2]
              · rw [h2]
            rw [this] at hfind
            exact findChild_append_some _ _ _ _ hfind
          · rw [if_neg hsame]; exact hfind
      have hidx : (fl.getNode i).index = i := index_of_valid fl i hwf hv
      have hnewN : nodeAt (fl.next_stack_node i f).1 fl.stack_node_list.length =
          ⟨[], f, i, (fl.stack_node_list.length : Int)⟩ := by rw [hnew, hidx]
      have hgetret : (fl.next_stack_node i f).1.getNode (fl.next_stack_node i f).2 =
          nodeAt (fl.next_stack_node i f).1 fl.stack_node_list.length := by
        rw [hret, getNode_nonneg _ _ (by positivity)]
        simp
      have hwf' : WF (fl.next_stack_node i f).1 := by
        refine ⟨by rw [hrooti]; exact hwf.1, ?_, ?_, ?_, ?_⟩
        · intro p hp
          rw [hlen] at hp
          rcases Nat.lt_succ_iff_lt_or_eq.1 hp with hp' | hp'
          · rw [(hold p hp').2.2]; exact hwf.2.1 p hp'
          · subst hp'; rw [hnewN]
        · have hroot' : (fl.next_stack_node i f).1.getNode (-1) =
              (fl.next_stack_node i f).1.root_stack_node := getNode_neg _ _ (by norm_num)
          intro fc hfc'
          rw [← hroot'] at hfc'
          rw [hch (-1)] at hfc'
          by_cases hi : i < 0
          · rw [if_neg (by rintro ⟨h1, _⟩; omega), if_pos (Or.inl ⟨hi, by norm_num⟩)] at hfc'
            rcases List.mem_append.1 hfc' with hmem | hmem
            · have hokR : childOk fl (fl.getNode i) i := childOk_of_valid fl i hwf hv
              have hokR' := childOk_mono _ _ hext hokR
              have := hokR' fc hmem
              rcases hv with hroot | ⟨hge, _⟩
              · obtain ⟨a1, a2, a3, a4⟩ := this
                exact ⟨a1, by omega, a3, by rw [a4, hroot]⟩
              · omega
            · simp at hmem
              rw [hmem]
              refine ⟨by positivity, by rw [hlen]; omega, ?_, ?_⟩
              · rw [getNode_natCast, hnewN]
              · rw [getNode_natCast, hnewN]
                rcases hv with hroot | ⟨hge, _⟩
                · exact hroot ▸ rfl
                · omega
          · rw [if_neg (by rintro ⟨h1, _⟩; omega),
                if_neg (by rintro (⟨hc, _⟩ | ⟨_, hc⟩) <;> omega)] at hfc'
            rw [getNode_neg _ _ (by norm_num)] at hfc'
            exact childOk_mono _ _ hext hwf.2.2.1 fc hfc'
        · intro p hp
          rw [hlen] at hp
          rcases Nat.lt_succ_iff_lt_or_eq.1 hp with hp' | hp'
          · have hget : (fl.next_stack_node i f).1.getNode (p : Int) =
                nodeAt (fl.next_stack_node i f).1 p := by
              rw [getNode_nonneg _ _ (by positivity)]; simp
            intro fc hfc'
            rw [← hget, hch (p : Int)] at hfc'
            rw [if_neg (by rintro ⟨_, hc⟩; simp at hc; omega)] at hfc'
            by_cases hsame : (i < 0 ∧ (p : Int) < 0) ∨ (0 ≤ i ∧ (p : Int) = i)
            · rw [if_pos hsame] at hfc'
              have hpi : (p : Int) = i := by
                rcases hsame with ⟨_, hc⟩ | ⟨_, hc⟩
                · omega
                · exact hc
              rcases List.mem_append.1 hfc' with hmem | hmem
              · have hokP : childOk fl (fl.getNode i) i := childOk_of_valid fl i hwf hv
                have := childOk_mono _ _ hext hokP fc hmem
                obtain ⟨a1, a2, a3, a4⟩ := this
                exact ⟨a1, by omega, a3, by rw [a4, hpi]⟩
              · simp at hmem
                rw [hmem]
                refine ⟨by positivity, by rw [hlen]; omega, ?_, ?_⟩
                · rw [getNode_natCast, hnewN]
                · rw [getNode_natCast, hnewN, hpi]
            · rw [if_neg hsame] at hfc'
              rw [getNode_natCast] at hfc'
              have hokP : childOk fl (nodeAt fl p) (p : Int) := hwf.2.2.2.1 p hp'
              exact childOk_mono _ _ hext hokP fc hfc'
          · subst hp'
            intro fc hfc'
            rw [show nodeAt (fl.next_stack_node i f).1 fl.stack_node_list.length =
                ⟨[], f, i, (fl.stack_node_list.length : Int)⟩ from hnewN] at hfc'
            simp at hfc'
        · intro p hp
          rw [hlen] at hp
          rcases Nat.lt_succ_iff_lt_or_eq.1 hp with hp' | hp'
          · rw [(hold p hp').2.1]
            exact hwf.2.2.2.2 p hp'
          · subst hp'
            rw [hnewN]
            dsimp only
            constructor
            · rcases hv with hroot | ⟨hge, _⟩ <;> omega
            · exact hilt
      refine ⟨hwf', hext, ?_, by rw [hret]; positivity, by rw [hret]; exact hilt, ?_, ?_⟩
      · exact Or.inr ⟨by rw [hret]; positivity, by rw [hret, hlen]; omega⟩
      · rw [hgetret, hnewN]
      · rw [hgetret, hnewN]

/-! Path readback lemmas. -/

lemma pathToAux_neg (fl : FrameList) (fuel : Nat) (i : Int) (h : i < 0) :
    pathToAux fl fuel i = [] := by
  cases fuel with
  | zero => rfl
  | succ n => simp [pathToAux, h]

lemma validPos_parent (fl : FrameList) (i : Int) (hwf : WF fl) (hge : 0 ≤ i)
    (hlt : i.toNat < fl.stack_node_list.length) :
    validPos fl (fl.getNode i).parent ∧ (fl.getNode i).parent < i := by
  have hb := hwf.2.2.2.2 i.toNat hlt
  rw [Int.toNat_of_nonneg hge] at hb
  rw [getNode_nonneg _ _ hge]
  refine ⟨?_, hb.2⟩
  rcases lt_or_le (nodeAt fl i.toNat).parent 0 with hneg | hpos
  · left; omega
  · right
    refine ⟨hpos, ?_⟩
    omega

lemma pathToAux_congr (fl : FrameList) (hwf : WF fl) :
    ∀ f1 : Nat, ∀ i : Int, validPos fl i → i < (f1 : Int) →
    ∀ f2 : Nat, i < (f2 : Int) → pathToAux fl f1 i = pathToAux fl f2 i := by
  intro f1
  induction f1 with
  | zero =>
      intro i hv h1 f2 h2
      have : i < 0 := by omega
      rw [pathToAux_neg fl 0 i this, pathToAux_neg fl f2 i this]
  | succ n ih =>
      intro i hv h1 f2 h2
      by_cases hneg : i < 0
      · rw [pathToAux_neg fl (n + 1) i hneg, pathToAux_neg fl f2 i hneg]
      · push_neg at hneg
        have hlt : i.toNat < fl.stack_node_list.length := by
          rcases hv with hroot | ⟨_, h⟩
          · omega
          · exact h
        obtain ⟨hvp, hplt⟩ := validPos_parent fl i hwf hneg hlt
        cases f2 with
        | zero => omega
        | succ m =>
            simp only [pathToAux, if_neg (not_lt.2 hneg)]
            rw [ih (fl.getNode i).parent hvp (by omega) m (by omega)]

lemma pathTo_fuel (fl : FrameList) (hwf : WF fl) (i : Int) (hv : validPos fl i)
    (fuel : Nat) (h : i < (fuel : Int)) : pathToAux fl fuel i = fl.pathTo i := by
  unfold FrameList.pathTo
  exact pathToAux_congr fl hwf fuel i hv h (i.toNat + 1) (by omega)

lemma validPos_mono {fl fl' : FrameList} (i : Int) (hext : Extends fl fl')
    (hv : validPos fl i) : validPos fl' i := by
  have := hext.1
  rcases hv with hroot | ⟨hge, hlt⟩
  · left; exact hroot
  · right; exact ⟨hge, by omega⟩

lemma pathTo_extends {fl fl' : FrameList} (i : Int) (hwf : WF fl) (hext : Extends fl fl')
    (hv : validPos fl i) : fl'.pathTo i = fl.pathTo i := by
  suffices h : ∀ fuel : Nat, ∀ i : Int, validPos fl i → i < (fuel : Int) →
      pathToAux fl' fuel i = pathToAux fl fuel i by
    unfold FrameList.pathTo
    exact h (i.toNat + 1) i hv (by omega)
  intro fuel
  induction fuel with
  | zero => intro i _ _; rfl
  | succ n ih =>
      intro i hv h
      by_cases hneg : i < 0
      · rw [pathToAux_neg fl' (n + 1) i hneg, pathToAux_neg fl (n + 1) i hneg]
      · push_neg at hneg
        have hlt : i.toNat < fl.stack_node_list.length := by
          rcases hv with hroot | ⟨_, hlt⟩
          · omega
          · exact hlt
        have hpres := hext.2.2.1 i.toNat hlt
        obtain ⟨hvp, hplt⟩ := validPos_parent fl i hwf hneg hlt
        simp only [pathToAux, if_neg (not_lt.2 hneg)]
        rw [getNode_nonneg _ _ hneg, getNode_nonneg _ _ hneg, hpres.1, hpres.2.1]
        rw [getNode_nonneg _ _ hneg] at hvp hplt
        rw [ih (nodeAt fl i.toNat).parent hvp (by omega)]

lemma pathTo_root (fl : FrameList) : fl.pathTo (-1) = [] := by
  simp [FrameList.pathTo, pathToAux]

lemma pathTo_child (fl : FrameList) (i j : Int) (f : Frame) (hwf : WF fl)
    (hvi : validPos fl i) (hge : 0 ≤ j) (hij : i < j)
    (hfr : (fl.getNode j).frame = f) (hpar : (fl.getNode j).parent = i) :
    fl.pathTo j = fl.pathTo i ++ [f] := by
  unfold FrameList.pathTo
  have hj1 : ¬ j < 0 := not_lt.2 hge
  conv =>
    lhs
    rw [show j.toNat + 1 = j.toNat + 1 from rfl]
  rw [show pathToAux fl (j.toNat + 1) j =
      pathToAux fl j.toNat (fl.getNode j).parent ++ [(fl.getNode j).frame] by
    simp [pathToAux, hj1]]
  rw [hfr, hpar]
  rw [pathToAux_congr fl hwf j.toNat i hvi (by omega) (i.toNat + 1) (by omega)]

/-- Combined facts for the `stack_index` walk loop on a well-formed tree:
preservation of well-formedness, tree extension, and exactness of the
root-to-result path. -/
lemma walk_main (fs : List Frame) (fl : FrameList) (i : Int) (hwf : WF fl)
    (hv : validPos fl i) :
    WF (fl.walk i fs).1 ∧ Extends fl (fl.walk i fs).1 ∧
    validPos (fl.walk i fs).1 (fl.walk i fs).2 ∧
    (fl.walk i fs).1.pathTo (fl.walk i fs).2 = fl.pathTo i ++ fs := by
  induction fs generalizing fl i with
  | nil => exact ⟨hwf, extends_refl fl, hv, by simp [FrameList.walk]⟩
  | cons f rest ih =>
      obtain ⟨hwf1, hext1, hv1, hge1, hlt1, hfr1, hpar1⟩ := next_main fl i f hwf hv
      have hstep : fl.walk i (f :: rest) =
          (fl.next_stack_node i f).1.walk (fl.next_stack_node i f).2 rest := by
        simp [FrameList.walk]
      obtain ⟨hwf2, hext2, hv2, hpath2⟩ :=
        ih (fl.next_stack_node i f).1 (fl.next_stack_node i f).2 hwf1 hv1
      rw [hstep]
      refine ⟨hwf2, extends_trans hext1 hext2, hv2, ?_⟩
      rw [hpath2]
      have hvi' : validPos (fl.next_stack_node i f).1 i := validPos_mono i hext1 hv
      rw [pathTo_child (fl.next_stack_node i f).1 i (fl.next_stack_node i f).2 f hwf1
        hvi' hge1 hlt1 hfr1 hpar1]
      rw [pathTo_extends i hwf hext1 hv]
      simp

/-! Lookup lemmas: pure walks versus interning walks. -/

lemma next_child_lookup (fl : FrameList) (i : Int) (f : Frame) (hv : validPos fl i) :
    findChild (((fl.next_stack_node i f).1.getNode i).children) f =
      some (fl.next_stack_node i f).2 := by
  cases hfc : findChild (fl.getNode i).children f with
  | some j => rw [next_found fl i f j hfc]; exact hfc
  | none =>
      rw [insert_ret fl i f hfc, insert_children fl i f i hv hfc]
      have hcond : ¬ (0 ≤ i ∧ i.toNat = fl.stack_node_list.length) := by
        rcases hv with hroot | ⟨hge, hlt⟩
        · rintro ⟨h1, _⟩; omega
        · rintro ⟨_, h2⟩; omega
      rw [if_neg hcond]
      have hsame : (i < 0 ∧ i < 0) ∨ (0 ≤ i ∧ i = i) := by
        rcases hv with hroot | ⟨hge, _⟩
        · left; omega
        · right; exact ⟨hge, rfl⟩
      rw [if_pos hsame]
      exact findChild_append_self _ _ _ hfc

lemma lookup_mono {fl fl' : FrameList} (hext : Extends fl fl') :
    ∀ fs : List Frame, ∀ i j : Int,
    lookupFrom fl i fs = some j → lookupFrom fl' i fs = some j := by
  intro fs
  induction fs with
  | nil => intro i j h; exact h
  | cons f rest ih =>
      intro i j h
      unfold lookupFrom at h ⊢
      cases hfc : findChild (fl.getNode i).children f with
      | none => rw [hfc] at h; simp at h
      | some m =>
          rw [hfc] at h
          rw [hext.2.2.2 i f m hfc]
          exact ih m j h

lemma walk_lookup (fs : List Frame) (fl : FrameList) (i : Int) (hwf : WF fl)
    (hv : validPos fl i) :
    lookupFrom (fl.walk i fs).1 i fs = some (fl.walk i fs).2 := by
  induction fs generalizing fl i with
  | nil => rfl
  | cons f rest ih =>
      obtain ⟨hwf1, hext1, hv1, _, _, _, _⟩ := next_main fl i f hwf hv
      have hstep : fl.walk i (f :: rest) =
          (fl.next_stack_node i f).1.walk (fl.next_stack_node i f).2 rest := by
        simp [FrameList.walk]
      rw [hstep]
      unfold lookupFrom
      obtain ⟨hwf2, hext2, _, _⟩ :=
        walk_main rest (fl.next_stack_node i f).1 (fl.next_stack_node i f).2 hwf1 hv1
      have hchild := next_child_lookup fl i f hv
      have hchild' := hext2.2.2.2 i f (fl.next_stack_node i f).2 hchild
      rw [hchild']
      exact ih (fl.next_stack_node i f).1 (fl.next_stack_node i f).2 hwf1 hv1

lemma walk_of_lookup : ∀ fs : List Frame, ∀ (fl : FrameList) (i j : Int),
    lookupFrom fl i fs = some j → fl.walk i fs = (fl, j) := by
  intro fs
  induction fs with
  | nil =>
      intro fl i j h
      unfold lookupFrom at h
      simp at h
      rw [h]
      rfl
  | cons f rest ih =>
      intro fl i j h
      unfold lookupFrom at h
      cases hfc : findChild (fl.getNode i).children f with
      | none => rw [hfc] at h; simp at h
      | some m =>
          rw [hfc] at h
          have hstep : fl.walk i (f :: rest) =
              (fl.next_stack_node i f).1.walk (fl.next_stack_node i f).2 rest := by
            simp [FrameList.walk]
          rw [hstep, next_found fl i f m hfc]
          exact ih fl m j h

lemma lookup_append (as bs : List Frame) : ∀ (fl : FrameList) (i : Int),
    lookupFrom fl i (as ++ bs) =
      (lookupFrom fl i as).bind (fun m => lookupFrom fl m bs) := by
  induction as with
  | nil => intro fl i; simp [lookupFrom]
  | cons a rest ih =>
      intro fl i
      rw [List.cons_append]
      simp only [lookupFrom]
      cases hfc : findChild (fl.getNode i).children a with
      | none => simp [hfc]
      | some m =>
          simp only [hfc]
          exact ih fl m

lemma walk_append (as bs : List Frame) : ∀ (fl : FrameList) (i : Int),
    fl.walk i (as ++ bs) = (fl.walk i as).1.walk (fl.walk i as).2 bs := by
  induction as with
  | nil => intro fl i; rfl
  | cons a rest ih =>
      intro fl i
      show fl.walk i (a :: (rest ++ bs)) = _
      have h1 : fl.walk i (a :: (rest ++ bs)) =
          (fl.next_stack_node i a).1.walk (fl.next_stack_node i a).2 (rest ++ bs) := by
        simp [FrameList.walk]
      have h2 : fl.walk i (a :: rest) =
          (fl.next_stack_node i a).1.walk (fl.next_stack_node i a).2 rest := by
        simp [FrameList.walk]
      rw [h1, h2, ih]

lemma walkRecord_walk : ∀ fs : List Frame, ∀ (fl : FrameList) (i : Int),
    (walkRecord fl i fs).1 = (fl.walk i fs).1 ∧
    (walkRecord fl i fs).2.1 = (fl.walk i fs).2 := by
  intro fs
  induction fs with
  | nil => intro fl i; exact ⟨rfl, rfl⟩
  | cons f rest ih =>
      intro fl i
      have h1 : walkRecord fl i (f :: rest) =
          ((walkRecord (fl.next_stack_node i f).1 (fl.next_stack_node i f).2 rest).1,
           (walkRecord (fl.next_stack_node i f).1 (fl.next_stack_node i f).2 rest).2.1,
           ((fl.next_stack_node i f).1.getNode (fl.next_stack_node i f).2).index ::
           (walkRecord (fl.next_stack_node i f).1 (fl.next_stack_node i f).2 rest).2.2) := by
        simp [walkRecord]
      have h2 : fl.walk i (f :: rest) =
          (fl.next_stack_node i f).1.walk (fl.next_stack_node i f).2 rest := by
        simp [FrameList.walk]
      rw [h1, h2]
      exact ih (fl.next_stack_node i f).1 (fl.next_stack_node i f).2

lemma lookup_validPos (fl : FrameList) (hwf : WF fl) :
    ∀ fs : List Frame, ∀ i j : Int, validPos fl i →
    lookupFrom fl i fs = some j → validPos fl j := by
  intro fs
  induction fs with
  | nil =>
      intro i j hv h
      unfold lookupFrom at h
      simp at h
      rwa [← h]
  | cons f rest ih =>
      intro i j hv h
      unfold lookupFrom at h
      cases hfc : findChild (fl.getNode i).children f with
      | none => rw [hfc] at h; simp at h
      | some m =>
          rw [hfc] at h
          have hok := childOk_of_valid fl i hwf hv (f, m) (findChild_mem _ _ _ hfc)
          dsimp only at hok
          exact ih m j (Or.inr ⟨hok.1, by omega⟩) h

/-! Common-prefix facts used by the translator. -/

lemma commonPrefixLen_le_left : ∀ a b : List Frame, commonPrefixLen a b ≤ a.length := by
  intro a
  induction a with
  | nil => intro b; cases b <;> simp [commonPrefixLen]
  | cons x xs ih =>
      intro b
      cases b with
      | nil => simp [commonPrefixLen]
      | cons y ys =>
          by_cases hxy : x = y
          · simp only [commonPrefixLen, if_pos hxy, List.length_cons]
            have := ih ys
            omega
          · simp [commonPrefixLen, hxy]

lemma commonPrefixLen_le_right : ∀ a b : List Frame, commonPrefixLen a b ≤ b.length := by
  intro a
  induction a with
  | nil => intro b; cases b <;> simp [commonPrefixLen]
  | cons x xs ih =>
      intro b
      cases b with
      | nil => simp [commonPrefixLen]
      | cons y ys =>
          by_cases hxy : x = y
          · simp only [commonPrefixLen, if_pos hxy, List.length_cons]
            have := ih ys
            omega
          · simp [commonPrefixLen, hxy]

lemma commonPrefixLen_take : ∀ a b : List Frame,
    a.take (commonPrefixLen a b) = b.take (commonPrefixLen a b) := by
  intro a
  induction a with
  | nil => intro b; cases b <;> simp [commonPrefixLen]
  | cons x xs ih =>
      intro b
      cases b with
      | nil => simp [commonPrefixLen]
      | cons y ys =>
          by_cases hxy : x = y
          · simp only [commonPrefixLen, if_pos hxy, List.take_succ_cons]
            rw [hxy, ih ys]
          · simp [commonPrefixLen, hxy]

/-- Zeta-reduced equation for `SampleTranslator.translate`. -/
lemma translate_eq (t : SampleTranslator) (fl : FrameList) (s : RawSample) :
    t.translate fl s =
      (⟨((walkRecord fl
            (if commonPrefixLen t.frames s.frames = 0 then -1
             else t.frame_indexes.getD (commonPrefixLen t.frames s.frames - 1) 0)
            (s.frames.drop (commonPrefixLen t.frames s.frames))).1.getNode
          (walkRecord fl
            (if commonPrefixLen t.frames s.frames = 0 then -1
             else t.frame_indexes.getD (commonPrefixLen t.frames s.frames - 1) 0)
            (s.frames.drop (commonPrefixLen t.frames s.frames))).2.1).index,
        t.frames.take (commonPrefixLen t.frames s.frames) ++
          s.frames.drop (commonPrefixLen t.frames s.frames),
        t.frame_indexes.take (commonPrefixLen t.frames s.frames) ++
          (walkRecord fl
            (if commonPrefixLen t.frames s.frames = 0 then -1
             else t.frame_indexes.getD (commonPrefixLen t.frames s.frames - 1) 0)
            (s.frames.drop (commonPrefixLen t.frames s.frames))).2.2⟩,
       (walkRecord fl
          (if commonPrefixLen t.frames s.frames = 0 then -1
           else t.frame_indexes.getD (commonPrefixLen t.frames s.frames - 1) 0)
          (s.frames.drop (commonPrefixLen t.frames s.frames))).1,
       ((walkRecord fl
            (if commonPrefixLen t.frames s.frames = 0 then -1
             else t.frame_indexes.getD (commonPrefixLen t.frames s.frames - 1) 0)
            (s.frames.drop (commonPrefixLen t.frames s.frames))).1.getNode
          (walkRecord fl
            (if commonPrefixLen t.frames s.frames = 0 then -1
             else t.frame_indexes.getD (commonPrefixLen t.frames s.frames - 1) 0)
            (s.frames.drop (commonPrefixLen t.frames s.frames))).2.1).index) := rfl

/-- Unfolding equation for `stack_index` on a non-empty sample. -/
lemma stack_index_eq (fl : FrameList) (s : RawSample) (h : s.frames ≠ []) :
    fl.stack_index s = some ((fl.walk (-1) s.frames).1,
      ((fl.walk (-1) s.frames).1.getNode (fl.walk (-1) s.frames).2).index) := by
  unfold FrameList.stack_index
  rw [if_neg (by simpa [RawSample.isEmpty] using h)]

/-- The cached restart point of `translate` is exactly where the pure walk of
the shared prefix ends. -/
lemma translate_start_lookup (t : SampleTranslator) (fl : FrameList) (s : RawSample)
    (hinv : TransInv t fl) :
    lookupFrom fl (-1) (s.frames.take (commonPrefixLen t.frames s.frames)) =
      some (if commonPrefixLen t.frames s.frames = 0 then -1
            else t.frame_indexes.getD (commonPrefixLen t.frames s.frames - 1) 0) := by
  by_cases hk0 : commonPrefixLen t.frames s.frames = 0
  · rw [hk0, if_pos rfl]
    simp [lookupFrom]
  · rw [if_neg hk0]
    have hkle : commonPrefixLen t.frames s.frames ≤ t.frames.length :=
      commonPrefixLen_le_left _ _
    have hk1 : commonPrefixLen t.frames s.frames - 1 < t.frames.length := by omega
    have hstep := hinv.2 (commonPrefixLen t.frames s.frames - 1) hk1
    rw [show commonPrefixLen t.frames s.frames - 1 + 1 =
        commonPrefixLen t.frames s.frames by omega] at hstep
    rw [commonPrefixLen_take t.frames s.frames] at hstep
    rw [hstep]
    have hk1' : commonPrefixLen t.frames s.frames - 1 < t.frame_indexes.length := by
      rw [hinv.1]; omega
    rw [List.getElem?_eq_getElem hk1']
    simp [List.getD, List.getElem?_eq_getElem hk1']

/-- Decomposition of the fresh `stack_index` walk through the translator's
cached prefix: the full walk equals the suffix walk started at the cached
node. -/
lemma walk_decomp (t : SampleTranslator) (fl : FrameList) (s : RawSample)
    (hinv : TransInv t fl) :
    fl.walk (-1) s.frames =
      fl.walk (if commonPrefixLen t.frames s.frames = 0 then -1
               else t.frame_indexes.getD (commonPrefixLen t.frames s.frames - 1) 0)
        (s.frames.drop (commonPrefixLen t.frames s.frames)) := by
  conv_lhs =>
    rw [show s.frames = s.frames.take (commonPrefixLen t.frames s.frames) ++
        s.frames.drop (commonPrefixLen t.frames s.frames) from
      (List.take_append_drop _ s.frames).symm]
  rw [walk_append]
  rw [walk_of_lookup _ _ _ _ (translate_start_lookup t fl s hinv)]

/-- Invariant carried through a capture session: the tree stays well-formed
and every interned stack remains reachable by a pure walk whose root-to-node
path spells out exactly that stack. -/
lemma internSession_spec (ss : List RawSample) :
    ∀ fl : FrameList, WF fl →
    ∀ flF idxs, internSession fl ss = some (flF, idxs) →
    WF flF ∧ Extends fl flF ∧ idxs.length = ss.length ∧
    ∀ j, j < ss.length →
      validPos flF (idxs.getD j (-1)) ∧
      lookupFrom flF (-1) ((ss.getD j ⟨[], false⟩).frames) = some (idxs.getD j (-1)) ∧
      flF.pathTo (idxs.getD j (-1)) = (ss.getD j ⟨[], false⟩).frames := by
  induction ss with
  | nil =>
      intro fl hwf flF idxs h
      unfold internSession at h
      simp at h
      obtain ⟨h1, h2⟩ := h
      subst h1
      subst h2
      exact ⟨hwf, extends_refl fl, rfl, by intro j hj; simp at hj⟩
  | cons s rest ih =>
      intro fl hwf flF idxs h
      unfold internSession at h
      cases hsi : fl.stack_index s with
      | none => rw [hsi] at h; simp at h
      | some r =>
          rw [hsi] at h
          dsimp only at h
          cases hrec : internSession r.1 rest with
          | none => rw [hrec] at h; simp at h
          | some r2 =>
              rw [hrec] at h
              simp at h
              obtain ⟨hfl, hidx⟩ := h
              have hne : s.frames ≠ [] := by
                intro hnil
                unfold FrameList.stack_index at hsi
                rw [if_pos (by simp [RawSample.isEmpty, hnil])] at hsi
                simp at hsi
              rw [stack_index_eq fl s hne] at hsi
              have hroot : validPos fl (-1) := Or.inl rfl
              obtain ⟨hwf1, hext1, hv1, hpath1⟩ := walk_main s.frames fl (-1) hwf hroot
              have hidx1 : ((fl.walk (-1) s.frames).1.getNode (fl.walk (-1) s.frames).2).index =
                  (fl.walk (-1) s.frames).2 := index_of_valid _ _ hwf1 hv1
              have hr1 : r.1 = (fl.walk (-1) s.frames).1 := by
                rw [← Option.some.inj hsi]
              have hr2 : r.2 = (fl.walk (-1) s.frames).2 := by
                rw [← Option.some.inj hsi]
                exact hidx1
              have hlkp : lookupFrom r.1 (-1) s.frames = some r.2 := by
                rw [hr1, hr2]
                exact walk_lookup s.frames fl (-1) hwf hroot
              have hpathr : r.1.pathTo r.2 = s.frames := by
                rw [hr1, hr2, hpath1, pathTo_root]
                simp
              have hvr : validPos r.1 r.2 := by rw [hr1, hr2]; exact hv1
              have hwfr : WF r.1 := by rw [hr1]; exact hwf1
              obtain ⟨hwfF, hextF, hlenF, hfactsF⟩ := ih r.1 hwfr r2.1 r2.2 hrec
              subst hfl
              refine ⟨hwfF, extends_trans (by rw [← hr1] at hext1; exact hext1) hextF, ?_, ?_⟩
              · rw [← hidx]
                simp [hlenF]
              · intro j hj
                cases j with
                | zero =>
                    rw [← hidx]
                    simp only [List.getD_cons_zero]
                    refine ⟨validPos_mono r.2 hextF hvr, lookup_mono hextF s.frames (-1) r.2 hlkp, ?_⟩
                    rw [pathTo_extends r.2 hwfr hextF hvr]
                    exact hpathr
                | succ n =>
                    rw [← hidx]
                    simp only [List.getD_cons_succ]
                    exact hfactsF n (by simpa using hj)

lemma commonPrefixLen_of_firstDiff : ∀ (k : Nat) (a b : List Frame),
    a.take k = b.take k → a[k]? ≠ b[k]? → commonPrefixLen a b = k := by
  intro k
  induction k with
  | zero =>
      intro a b _ hdiff
      cases a with
      | nil =>
          cases b with
          | nil => simp at hdiff
          | cons y ys => simp [commonPrefixLen]
      | cons x xs =>
          cases b with
          | nil => simp [commonPrefixLen]
          | cons y ys =>
              by_cases hxy : x = y
              · subst hxy; simp at hdiff
              · simp [commonPrefixLen, hxy]
  | succ n ih =>
      intro a b htake hdiff
      cases a with
      | nil =>
          cases b with
          | nil => simp at hdiff
          | cons y ys => simp at htake
      | cons x xs =>
          cases b with
          | nil => simp at htake
          | cons y ys =>
              simp only [List.take_succ_cons, List.cons.injEq] at htake
              obtain ⟨hxy, htake'⟩ := htake
              simp only [commonPrefixLen, if_pos hxy]
              have hdiff' : xs[n]? ≠ ys[n]? := by
                simpa using hdiff
              rw [ih xs ys htake' hdiff']

/-! Reachability of the hypotheses of the refinement claim: the cache
invariant holds initially, survives interning performed by other translators
on the shared tree, and is re-established by every `translate` call. -/

lemma WF_empty : WF FrameList.empty := by decide

lemma transInv_init (fl : FrameList) : TransInv SampleTranslator.init fl := by
  refine ⟨rfl, ?_⟩
  intro k hk
  simp [SampleTranslator.init] at hk

lemma transInv_mono {fl fl' : FrameList} (t : SampleTranslator) (hext : Extends fl fl')
    (hinv : TransInv t fl) : TransInv t fl' := by
  refine ⟨hinv.1, ?_⟩
  intro k hk
  have h := hinv.2 k hk
  have hk' : k < t.frame_indexes.length := by rw [hinv.1]; exact hk
  rw [List.getElem?_eq_getElem hk'] at h ⊢
  exact lookup_mono hext _ _ _ h

/-- The indices recorded by the `translate` suffix loop are precisely the
pure-walk results of the corresponding prefixes. -/
lemma walkRecord_spec (fs : List Frame) : ∀ (fl : FrameList) (i : Int),
    WF fl → validPos fl i →
    (walkRecord fl i fs).2.2.length = fs.length ∧
    ∀ m, m < fs.length →
      lookupFrom (walkRecord fl i fs).1 i (fs.take (m + 1)) = (walkRecord fl i fs).2.2[m]? := by
  induction fs with
  | nil =>
      intro fl i _ _
      exact ⟨rfl, by intro m hm; simp at hm⟩
  | cons f rest ih =>
      intro fl i hwf hv
      obtain ⟨hwf1, hext1, hv1, hge1, hlt1, hfr1, hpar1⟩ := next_main fl i f hwf hv
      have hstep : walkRecord fl i (f :: rest) =
          ((walkRecord (fl.next_stack_node i f).1 (fl.next_stack_node i f).2 rest).1,
           (walkRecord (fl.next_stack_node i f).1 (fl.next_stack_node i f).2 rest).2.1,
           ((fl.next_stack_node i f).1.getNode (fl.next_stack_node i f).2).index ::
           (walkRecord (fl.next_stack_node i f).1 (fl.next_stack_node i f).2 rest).2.2) := by
        simp [walkRecord]
      obtain ⟨ihlen, ihfacts⟩ :=
        ih (fl.next_stack_node i f).1 (fl.next_stack_node i f).2 hwf1 hv1
      have hidxfield : ((fl.next_stack_node i f).1.getNode (fl.next_stack_node i f).2).index =
          (fl.next_stack_node i f).2 := index_of_valid _ _ hwf1 hv1
      have hextR : Extends (fl.next_stack_node i f).1
          (walkRecord (fl.next_stack_node i f).1 (fl.next_stack_node i f).2 rest).1 := by
        rw [(walkRecord_walk rest _ _).1]
        exact (walk_main rest (fl.next_stack_node i f).1 (fl.next_stack_node i f).2 hwf1 hv1).2.1
      have hchild := hextR.2.2.2 i f (fl.next_stack_node i f).2 (next_child_lookup fl i f hv)
      rw [hstep]
      refine ⟨by simp [ihlen], ?_⟩
      intro m hm
      cases m with
      | zero =>
          show lookupFrom _ i [f] = _
          unfold lookupFrom
          rw [hchild]
          show some (fl.next_stack_node i f).2 = _
          simp [hidxfield]
      | succ n =>
          rw [List.take_succ_cons]
          show lookupFrom _ i (f :: rest.take (n + 1)) = _
          unfold lookupFrom
          rw [hchild]
          dsimp only
          have := ihfacts n (by simpa using hm)
          rw [this]
          simp

/-- After one `translate` call, the tree is still well-formed and the
refreshed translator cache again satisfies the invariant against the updated
tree — so the hypotheses of the refinement claim hold for every state a
session can actually reach. -/
theorem translate_preserves_aux (t : SampleTranslator) (fl : FrameList) (s : RawSample)
    (k : Nat) (sp : Int)
    (hwf : WF fl) (hinv : TransInv t fl)
    (hk : k = commonPrefixLen t.frames s.frames)
    (hsp : lookupFrom fl (-1) (s.frames.take k) = some sp) :
    WF (walkRecord fl sp (s.frames.drop k)).1 ∧
    TransInv
      ⟨((walkRecord fl sp (s.frames.drop k)).1.getNode
          (walkRecord fl sp (s.frames.drop k)).2.1).index,
        t.frames.take k ++ s.frames.drop k,
        t.frame_indexes.take k ++ (walkRecord fl sp (s.frames.drop k)).2.2⟩
      (walkRecord fl sp (s.frames.drop k)).1 := by
  have hvs : validPos fl sp :=
    lookup_validPos fl hwf (s.frames.take k) (-1) sp (Or.inl rfl) hsp
  have hkleft : k ≤ t.frames.length := by rw [hk]; exact commonPrefixLen_le_left _ _
  have hkright : k ≤ s.frames.length := by rw [hk]; exact commonPrefixLen_le_right _ _
  have hfi : t.frame_indexes.length = t.frames.length := hinv.1
  have htk : t.frames.take k = s.frames.take k := by rw [hk]; exact commonPrefixLen_take _ _
  obtain ⟨hwfW, hextW, hvW, _⟩ := walk_main (s.frames.drop k) fl sp hwf hvs
  have hwfR : WF (walkRecord fl sp (s.frames.drop k)).1 := by
    rw [(walkRecord_walk _ _ _).1]
    exact hwfW
  have hextR : Extends fl (walkRecord fl sp (s.frames.drop k)).1 := by
    rw [(walkRecord_walk _ _ _).1]
    exact hextW
  obtain ⟨hrlen, hrfacts⟩ := walkRecord_spec (s.frames.drop k) fl sp hwf hvs
  refine ⟨hwfR, ?_, ?_⟩
  · show (t.frame_indexes.take k ++ _).length = (t.frames.take k ++ _).length
    simp only [List.length_append, List.length_take, List.length_drop]
    rw [hrlen]
    simp only [List.length_drop]
    omega
  · intro m hm
    show lookupFrom _ (-1) ((t.frames.take k ++ s.frames.drop k).take (m + 1)) =
      (t.frame_indexes.take k ++ (walkRecord fl sp (s.frames.drop k)).2.2)[m]?
    have hfr : t.frames.take k ++ s.frames.drop k = s.frames := by
      rw [htk]
      exact List.take_append_drop k s.frames
    have hmlen : m < s.frames.length := by
      have : (t.frames.take k ++ s.frames.drop k).length = s.frames.length := by
        rw [hfr]
      simp only [this] at hm
      exact hm
    rw [hfr]
    by_cases hmk : m < k
    · have htm : s.frames.take (m + 1) = t.frames.take (m + 1) := by
        have h1 : (t.frames.take k).take (m + 1) = t.frames.take (m + 1) := by
          rw [List.take_take]
          congr 1
          omega
        have h2 : (s.frames.take k).take (m + 1) = s.frames.take (m + 1) := by
          rw [List.take_take]
          congr 1
          omega
        rw [← h2, ← htk, h1]
      have hfim : m < t.frame_indexes.length := by omega
      have hbase := hinv.2 m (by omega)
      rw [List.getElem?_eq_getElem hfim] at hbase
      have hlift := lookup_mono hextR _ _ _ hbase
      rw [htm, hlift]
      rw [List.getElem?_append_left (by simp; omega)]
      rw [List.getElem?_take_of_lt hmk]
      rw [List.getElem?_eq_getElem hfim]
    · have hsplit : s.frames.take (m + 1) =
          s.frames.take k ++ (s.frames.drop k).take (m + 1 - k) := by
        rw [show m + 1 = k + (m + 1 - k) by omega, List.take_add]
        congr 1
        congr 1
        omega
      rw [hsplit, lookup_append]
      rw [lookup_mono hextR _ _ _ hsp]
      show lookupFrom _ sp ((s.frames.drop k).take (m + 1 - k)) = _
      have hmk' : m - k < (s.frames.drop k).length := by
        simp only [List.length_drop]
        omega
      have := hrfacts (m - k) hmk'
      rw [show m + 1 - k = m - k + 1 by omega, this]
      rw [List.getElem?_append_right (by simp; omega)]
      congr 1
      simp only [List.length_take]
      omega

theorem translate_preserves (t : SampleTranslator) (fl : FrameList) (s : RawSample)
    (hwf : WF fl) (hinv : TransInv t fl) :
    WF (t.translate fl s).2.1 ∧ TransInv (t.translate fl s).1 (t.translate fl s).2.1 := by
  rw [translate_eq]
  exact translate_preserves_aux t fl s (commonPrefixLen t.frames s.frames)
    (if commonPrefixLen t.frames s.frames = 0 then -1
     else t.frame_indexes.getD (commonPrefixLen t.frames s.frames - 1) 0)
    hwf hinv rfl (translate_start_lookup t fl s hinv)

/-! Claim theorems. -/

/-- Claim C1: for every `RawSample` of length at least 1 and every prior
translator state — i.e. any state satisfying the cache consistency `TransInv`
that `translate` maintains against the shared tree — `SampleTranslator.translate`
returns exactly the node index that the fresh, non-incremental walk
`FrameList.stack_index` returns for that sample (and it leaves the tree in the
same state); this covers prefix, extension and disjoint relations with the
previously translated sample, which only vary the common-prefix length. -/
theorem spec_C1 (t : SampleTranslator) (fl : FrameList) (s : RawSample)
    (hinv : TransInv t fl) (hlen : 1 ≤ s.frames.length) :
    ∃ fl' i, fl.stack_index s = some (fl', i) ∧
      (t.translate fl s).2.1 = fl' ∧ (t.translate fl s).2.2 = i := by
  have hne : s.frames ≠ [] := by
    intro h
    rw [h] at hlen
    simp at hlen
  refine ⟨(fl.walk (-1) s.frames).1,
    ((fl.walk (-1) s.frames).1.getNode (fl.walk (-1) s.frames).2).index,
    stack_index_eq fl s hne, ?_, ?_⟩
  · rw [translate_eq]
    dsimp only
    rw [(walkRecord_walk _ _ _).1, ← walk_decomp t fl s hinv]
  · rw [translate_eq]
    dsimp only
    rw [(walkRecord_walk _ _ _).1, (walkRecord_walk _ _ _).2, ← walk_decomp t fl s hinv]

/-- Witness for C1: a freshly constructed translator over a fresh tree
satisfies the hypotheses, evaluated at the two-frame sample
`[⟨5,1⟩, ⟨7,2⟩]`. -/
theorem spec_C1_witness :
    TransInv SampleTranslator.init FrameList.empty ∧
    1 ≤ (RawSample.mk [⟨5, 1⟩, ⟨7, 2⟩] false).frames.length ∧
    (∃ fl' i, FrameList.empty.stack_index (RawSample.mk [⟨5, 1⟩, ⟨7, 2⟩] false) =
        some (fl', i) ∧
      (SampleTranslator.init.translate FrameList.empty
        (RawSample.mk [⟨5, 1⟩, ⟨7, 2⟩] false)).2.1 = fl' ∧
      (SampleTranslator.init.translate FrameList.empty
        (RawSample.mk [⟨5, 1⟩, ⟨7, 2⟩] false)).2.2 = i) :=
  ⟨by decide, by decide,
   spec_C1 SampleTranslator.init FrameList.empty (RawSample.mk [⟨5, 1⟩, ⟨7, 2⟩] false)
     (by decide) (by decide)⟩

/-- Claim C2: over any session of non-empty stacks interned into one
well-formed `StackTree` via `stack_index`, two calls with identical Frame
sequences return the same node index, and two calls whose sequences first
differ at position `k` return nodes whose root-to-node paths share exactly
their first `k` frames. -/
theorem spec_C2 (fl0 flF : FrameList) (ss : List RawSample) (idxs : List Int) (p q : Nat)
    (hwf : WF fl0) (hrun : internSession fl0 ss = some (flF, idxs))
    (hp : p < ss.length) (hq : q < ss.length) :
    ((ss.getD p ⟨[], false⟩).frames = (ss.getD q ⟨[], false⟩).frames →
      idxs.getD p (-1) = idxs.getD q (-1)) ∧
    (∀ k : Nat,
      (ss.getD p ⟨[], false⟩).frames.take k = (ss.getD q ⟨[], false⟩).frames.take k →
      (ss.getD p ⟨[], false⟩).frames[k]? ≠ (ss.getD q ⟨[], false⟩).frames[k]? →
      commonPrefixLen (flF.pathTo (idxs.getD p (-1))) (flF.pathTo (idxs.getD q (-1))) = k) := by
  obtain ⟨hwfF, hextF, hlenF, hfacts⟩ := internSession_spec ss fl0 hwf flF idxs hrun
  obtain ⟨hvp, hlp, hpp⟩ := hfacts p hp
  obtain ⟨hvq, hlq, hpq⟩ := hfacts q hq
  constructor
  · intro heq
    rw [heq] at hlp
    rw [hlp] at hlq
    exact Option.some.inj hlq
  · intro k htake hdiff
    rw [hpp, hpq]
    exact commonPrefixLen_of_firstDiff k _ _ htake hdiff

/-- Witness for C2: interning `[a, b]` and then `[a, c]` into a fresh tree
returns indices 1 and 2, whose paths share exactly their first frame. -/
theorem spec_C2_witness :
    WF FrameList.empty ∧
    (((witnessSamples.getD 0 ⟨[], false⟩).frames = (witnessSamples.getD 1 ⟨[], false⟩).frames →
      ([1, 2] : List Int).getD 0 (-1) = ([1, 2] : List Int).getD 1 (-1)) ∧
    (∀ k : Nat,
      (witnessSamples.getD 0 ⟨[], false⟩).frames.take k =
        (witnessSamples.getD 1 ⟨[], false⟩).frames.take k →
      (witnessSamples.getD 0 ⟨[], false⟩).frames[k]? ≠
        (witnessSamples.getD 1 ⟨[], false⟩).frames[k]? →
      commonPrefixLen (witnessTree.pathTo (([1, 2] : List Int).getD 0 (-1)))
        (witnessTree.pathTo (([1, 2] : List Int).getD 1 (-1))) = k)) :=
  ⟨by decide,
   spec_C2 FrameList.empty witnessTree witnessSamples [1, 2] 0 1
     (by decide) (by decide) (by decide) (by decide)⟩

/-- A duplicate SUSPENDED notification is dropped by the early guard of
`Thread::set_state`. -/
lemma set_state_dup_suspended (t : Thread) (now : TimeStamp) (sp st : Nat)
    (h : t.state = ThreadState.SUSPENDED) :
    t.set_state ThreadState.SUSPENDED now sp st = t := by
  unfold Thread.set_state
  rw [if_neg (by rw [h]; simp), if_pos ⟨rfl, h⟩]

/-- The marker effect of a transition to RUNNING: a "stalled" interval from
the last state change to now, emitted exactly when those timestamps differ. -/
lemma set_state_running_markers (t : Thread) (now : TimeStamp) (sp st : Nat)
    (hns : ¬ t.state = ThreadState.STOPPED) :
    (t.set_state ThreadState.RUNNING now sp st).markers =
      if t.state_changed_at ≠ now then
        recordInterval t.markers MarkerType.MARKER_THREAD_STALLED t.state_changed_at now (-1)
      else t.markers := by
  unfold Thread.set_state
  rw [if_neg hns, if_neg (by simp)]
  by_cases hz : t.started_at.isZero <;> by_cases hne : t.state_changed_at ≠ now <;>
    simp [hz, hne, recordInterval]

/-- No branch of `Thread::set_state` writes `stack_on_suspend_idx`. -/
lemma set_state_stack_idx (t : Thread) (ns : ThreadState) (now : TimeStamp) (sp st : Nat) :
    (t.set_state ns now sp st).stack_on_suspend_idx = t.stack_on_suspend_idx := by
  unfold Thread.set_state
  by_cases h1 : t.state = ThreadState.STOPPED
  · rw [if_pos h1]
  · rw [if_neg h1]
    by_cases h2 : ns = ThreadState.SUSPENDED ∧ t.state = ns
    · rw [if_pos h2]
    · rw [if_neg h2]
      cases ns <;> dsimp only <;> split_ifs <;> rfl

/-- Claim C5: for a thread already SUSPENDED, a further SUSPENDED lifecycle
notification through `ThreadTable::set_state` produces no additional marker
and no state change (state, its change timestamp and the marker list are all
untouched). -/
theorem spec_C5 (fl : FrameList) (t : Thread) (captured : RawSample) (now : TimeStamp)
    (sp st : Nat) (h : t.state = ThreadState.SUSPENDED) :
    ((ThreadTable.apply_state fl t ThreadState.SUSPENDED captured now sp st).2).markers =
      t.markers ∧
    ((ThreadTable.apply_state fl t ThreadState.SUSPENDED captured now sp st).2).state =
      t.state ∧
    ((ThreadTable.apply_state fl t ThreadState.SUSPENDED captured now sp st).2).state_changed_at =
      t.state_changed_at := by
  unfold ThreadTable.apply_state
  rw [if_pos rfl]
  dsimp only
  rw [set_state_dup_suspended _ _ _ _ (by simpa using h)]
  rw [if_neg (by simp [h])]
  dsimp only
  exact ⟨rfl, rfl, rfl⟩

/-- Witness for C5 at a concrete suspended thread. -/
theorem spec_C5_witness :
    ((ThreadTable.apply_state FrameList.empty suspendedThread ThreadState.SUSPENDED
        ⟨[⟨1, 0⟩], false⟩ ⟨9⟩ 3 4).2).markers = suspendedThread.markers ∧
    ((ThreadTable.apply_state FrameList.empty suspendedThread ThreadState.SUSPENDED
        ⟨[⟨1, 0⟩], false⟩ ⟨9⟩ 3 4).2).state = suspendedThread.state ∧
    ((ThreadTable.apply_state FrameList.empty suspendedThread ThreadState.SUSPENDED
        ⟨[⟨1, 0⟩], false⟩ ⟨9⟩ 3 4).2).state_changed_at = suspendedThread.state_changed_at :=
  spec_C5 FrameList.empty suspendedThread ⟨[⟨1, 0⟩], false⟩ ⟨9⟩ 3 4 (by decide)

/-- Claim C6: on a transition to RUNNING (legal sources READY and RUNNING,
with a monotone clock), a "stalled" interval marker spanning from the last
state change to now is emitted exactly when the elapsed time
`now - state_changed_at` is non-zero; when it is exactly zero at timestamp
granularity, no marker is recorded. -/
theorem spec_C6 (t : Thread) (now : TimeStamp) (sp st : Nat)
    (hstate : t.state = ThreadState.READY ∨ t.state = ThreadState.RUNNING)
    (hmono : t.state_changed_at.value_ns ≤ now.value_ns) :
    ((TimeStamp.sub now t.state_changed_at).value_ns ≠ 0 →
      (t.set_state ThreadState.RUNNING now sp st).markers =
        recordInterval t.markers MarkerType.MARKER_THREAD_STALLED t.state_changed_at now (-1)) ∧
    ((TimeStamp.sub now t.state_changed_at).value_ns = 0 →
      (t.set_state ThreadState.RUNNING now sp st).markers = t.markers) := by
  have hns : ¬ t.state = ThreadState.STOPPED := by
    rcases hstate with h | h <;> rw [h] <;> simp
  rw [set_state_running_markers t now sp st hns]
  constructor
  · intro h
    have hlt : t.state_changed_at.value_ns < now.value_ns := by
      by_contra hge
      simp [TimeStamp.sub, hge] at h
    rw [if_pos (by intro he; rw [he] at hlt; omega)]
  · intro h
    have heq : t.state_changed_at = now := by
      have hnlt : ¬ t.state_changed_at.value_ns < now.value_ns := by
        intro hlt
        rw [show TimeStamp.sub now t.state_changed_at =
            ⟨now.value_ns - t.state_changed_at.value_ns⟩ by
          simp [TimeStamp.sub, hlt]] at h
        simp at h
        omega
      have hv : t.state_changed_at.value_ns = now.value_ns := by omega
      cases hsc : t.state_changed_at with
      | mk a =>
          cases hnw : now with
          | mk b =>
              rw [hsc, hnw] at hv
              simp at hv
              rw [hv]
    rw [if_neg (by simp [heq])]

/-- Witness for C6: a READY thread whose last change was at 2 becomes
RUNNING at 9; elapsed 7 is non-zero so the stalled marker [2, 9) appears. -/
theorem spec_C6_witness :
    (((TimeStamp.sub ⟨9⟩ (Thread.mk SampleList.emptyList 1 0 0 ThreadState.READY ⟨2⟩ ⟨1⟩ ⟨0⟩
          (-1) SampleTranslator.init []).state_changed_at).value_ns ≠ 0 →
      ((Thread.mk SampleList.emptyList 1 0 0 ThreadState.READY ⟨2⟩ ⟨1⟩ ⟨0⟩
          (-1) SampleTranslator.init []).set_state ThreadState.RUNNING ⟨9⟩ 3 4).markers =
        recordInterval (Thread.mk SampleList.emptyList 1 0 0 ThreadState.READY ⟨2⟩ ⟨1⟩ ⟨0⟩
          (-1) SampleTranslator.init []).markers MarkerType.MARKER_THREAD_STALLED ⟨2⟩ ⟨9⟩ (-1)) ∧
    ((TimeStamp.sub ⟨9⟩ (Thread.mk SampleList.emptyList 1 0 0 ThreadState.READY ⟨2⟩ ⟨1⟩ ⟨0⟩
          (-1) SampleTranslator.init []).state_changed_at).value_ns = 0 →
      ((Thread.mk SampleList.emptyList 1 0 0 ThreadState.READY ⟨2⟩ ⟨1⟩ ⟨0⟩
          (-1) SampleTranslator.init []).set_state ThreadState.RUNNING ⟨9⟩ 3 4).markers =
        (Thread.mk SampleList.emptyList 1 0 0 ThreadState.READY ⟨2⟩ ⟨1⟩ ⟨0⟩
          (-1) SampleTranslator.init []).markers)) :=
  spec_C6 (Thread.mk SampleList.emptyList 1 0 0 ThreadState.READY ⟨2⟩ ⟨1⟩ ⟨0⟩
      (-1) SampleTranslator.init []) ⟨9⟩ 3 4 (Or.inl rfl) (by decide)

/-- Claim C7: recording a sample whose (stack, thread, category) triple
matches the immediately preceding entry's increments that entry's weight by 1
instead of appending (timestamps are never compared — `time` is arbitrary),
and recording the same stack/thread/category three times consecutively from
empty yields one entry of weight 3. -/
theorem spec_C7 :
    (∀ (sl : SampleList) (stack : Int) (time : TimeStamp) (tid : Nat) (cat : Category),
      sl.stacksV ≠ [] →
      sl.stacksV.getLast? = some stack →
      sl.threads.getLast? = some tid →
      sl.categories.getLast? = some cat →
      sl.record_sample stack time tid cat = { sl with weights := bumpLast sl.weights }) ∧
    (∀ (stack : Int) (t1 t2 t3 : TimeStamp) (tid : Nat) (cat : Category),
      (((SampleList.emptyList.record_sample stack t1 tid cat).record_sample
          stack t2 tid cat).record_sample stack t3 tid cat).stacksV = [stack] ∧
      (((SampleList.emptyList.record_sample stack t1 tid cat).record_sample
          stack t2 tid cat).record_sample stack t3 tid cat).weights = [3] ∧
      (((SampleList.emptyList.record_sample stack t1 tid cat).record_sample
          stack t2 tid cat).record_sample stack t3 tid cat).timestamps = [t1]) := by
  constructor
  · intro sl stack time tid cat h0 h1 h2 h3
    unfold SampleList.record_sample
    rw [if_pos ⟨h0, h1, h2, h3⟩]
  · intro stack t1 t2 t3 tid cat
    simp [SampleList.record_sample, SampleList.emptyList, bumpLast]

/-- Witness for C7 at a concrete list and concrete triple. -/
theorem spec_C7_witness :
    (SampleList.mk [4] [⟨0⟩] [9] [Category.CATEGORY_IDLE] [2]).record_sample 4 ⟨5⟩ 9
        Category.CATEGORY_IDLE =
      { SampleList.mk [4] [⟨0⟩] [9] [Category.CATEGORY_IDLE] [2] with
        weights := bumpLast [2] } ∧
    (((SampleList.emptyList.record_sample 4 ⟨1⟩ 9 Category.CATEGORY_NORMAL).record_sample
        4 ⟨2⟩ 9 Category.CATEGORY_NORMAL).record_sample 4 ⟨3⟩ 9
        Category.CATEGORY_NORMAL).weights = [3] :=
  ⟨spec_C7.1 (SampleList.mk [4] [⟨0⟩] [9] [Category.CATEGORY_IDLE] [2]) 4 ⟨5⟩ 9
      Category.CATEGORY_IDLE (by decide) (by decide) (by decide) (by decide),
   (spec_C7.2 4 ⟨1⟩ ⟨2⟩ ⟨3⟩ 9 Category.CATEGORY_NORMAL).2.1⟩

/-- Claim C8: the next scheduled tick is the previous schedule plus the
interval, except when the tick completed after that schedule, in which case
it resynchronizes to completion plus interval; in both cases the new schedule
is never earlier than the completion time, so no backlog of overdue ticks can
accumulate (at most the one late tick).  The `uint64_t` additions are exact
under the stated no-overflow bounds. -/
theorem spec_C8 (prev interval complete : TimeStamp)
    (h1 : prev.value_ns + interval.value_ns < U64_MOD)
    (h2 : complete.value_ns + interval.value_ns < U64_MOD) :
    (complete.value_ns ≤ prev.value_ns + interval.value_ns →
      TimeCollector.next_schedule prev interval complete =
        ⟨prev.value_ns + interval.value_ns⟩) ∧
    (prev.value_ns + interval.value_ns < complete.value_ns →
      TimeCollector.next_schedule prev interval complete =
        ⟨complete.value_ns + interval.value_ns⟩) ∧
    complete.value_ns ≤ (TimeCollector.next_schedule prev interval complete).value_ns := by
  unfold TimeCollector.next_schedule TimeStamp.add
  dsimp only
  rw [Nat.mod_eq_of_lt h1, Nat.mod_eq_of_lt h2]
  refine ⟨?_, ?_, ?_⟩
  · intro h
    rw [if_neg (by omega)]
  · intro h
    rw [if_pos h]
  · by_cases h : prev.value_ns + interval.value_ns < complete.value_ns
    · rw [if_pos h]
      dsimp only
      omega
    · rw [if_neg h]
      dsimp only
      omega

/-- Witness for C8: with schedule 10, interval 5 and completion 20 the loop
fell behind, so the next tick is 25 = completion + interval. -/
theorem spec_C8_witness :
    (((20 : Nat) ≤ 10 + 5 →
      TimeCollector.next_schedule ⟨10⟩ ⟨5⟩ ⟨20⟩ = ⟨10 + 5⟩) ∧
    ((10 : Nat) + 5 < 20 →
      TimeCollector.next_schedule ⟨10⟩ ⟨5⟩ ⟨20⟩ = ⟨20 + 5⟩) ∧
    (20 : Nat) ≤ (TimeCollector.next_schedule ⟨10⟩ ⟨5⟩ ⟨20⟩).value_ns) :=
  spec_C8 ⟨10⟩ ⟨5⟩ ⟨20⟩ (by decide) (by decide)

/-- Claim C9: stopping a non-running collector raises the "collector not
running" usage error and leaves the collector unchanged; starting an
already-running collector fails with "already running" and changes nothing;
a first start on a non-running collector succeeds and marks it running. -/
theorem spec_C9 (c : BaseCollector) (now : TimeStamp) :
    (c.running = false → c.stop = (some "collector not running", c)) ∧
    (c.running = true → collector_start c now = (some "already running", c)) ∧
    (c.running = false →
      collector_start c now = (none, { c with started_at := now, running := true }) ∧
      ((collector_start c now).2).running = true) := by
  refine ⟨?_, ?_, ?_⟩
  · intro h
    unfold BaseCollector.stop
    rw [if_pos h]
  · intro h
    simp [collector_start, BaseCollector.start, h]
  · intro h
    constructor
    · simp [collector_start, BaseCollector.start, h]
    · simp [collector_start, BaseCollector.start, h]

/-- Witness for C9: a stopped collector rejects `stop()`; a running one
rejects `start()`; a fresh one starts. -/
theorem spec_C9_witness :
    (BaseCollector.mk false ⟨0⟩).stop =
      (some "collector not running", BaseCollector.mk false ⟨0⟩) ∧
    collector_start (BaseCollector.mk true ⟨4⟩) ⟨7⟩ =
      (some "already running", BaseCollector.mk true ⟨4⟩) ∧
    collector_start (BaseCollector.mk false ⟨0⟩) ⟨7⟩ =
      (none, { BaseCollector.mk false ⟨0⟩ with started_at := ⟨7⟩, running := true }) :=
  ⟨(spec_C9 (BaseCollector.mk false ⟨0⟩) ⟨7⟩).1 rfl,
   (spec_C9 (BaseCollector.mk true ⟨4⟩) ⟨7⟩).2.1 rfl,
   ((spec_C9 (BaseCollector.mk false ⟨0⟩) ⟨7⟩).2.2 rfl).1⟩

/-- The STOPPED guard of `Thread::set_state`. -/
lemma set_state_stopped (t : Thread) (ns : ThreadState) (now : TimeStamp) (sp st : Nat)
    (h : t.state = ThreadState.STOPPED) : t.set_state ns now sp st = t := by
  unfold Thread.set_state
  rw [if_pos h]

/-- A SUSPENDED notification always stores the translation of the captured
sample, regardless of the thread's current state. -/
lemma apply_state_suspend_idx (fl : FrameList) (t : Thread) (captured : RawSample)
    (now : TimeStamp) (sp st : Nat) :
    ((ThreadTable.apply_state fl t ThreadState.SUSPENDED captured now sp st).2).stack_on_suspend_idx =
      (t.translator.translate fl captured).2.2 := by
  unfold ThreadTable.apply_state
  rw [if_pos rfl]
  dsimp only
  split_ifs <;> simp [set_state_stack_idx]

/-- Claim C3 counterexample: a RUNNING thread whose synchronous capture comes
back empty and not GC-flagged (as happens for a non-native thread) records
nothing — the tick is a no-op — although the claim says the sample is
translated and appended with category NORMAL. -/
theorem spec_C3_counterexample :
    TimeCollector.sample_thread_iteration FrameList.empty runningThread ⟨[], false⟩ ⟨5⟩ =
      (FrameList.empty, runningThread) ∧
    ¬ ((TimeCollector.sample_thread_iteration FrameList.empty runningThread
        ⟨[], false⟩ ⟨5⟩).2.samples.size = runningThread.samples.size + 1) := by
  decide

/-- Claim C3 as amended: on a sampler tick, a RUNNING thread's capture is
discarded when GC-flagged or empty; otherwise it is translated and recorded
(run-length compressed) with category NORMAL; a SUSPENDED thread records the
stack index stored at suspend time with category IDLE without using the
capture; threads in any other state contribute nothing. -/
theorem spec_C3 (fl : FrameList) (thread : Thread) (captured : RawSample) (ts : TimeStamp) :
    (thread.state = ThreadState.RUNNING → captured.gc = true →
      TimeCollector.sample_thread_iteration fl thread captured ts = (fl, thread)) ∧
    (thread.state = ThreadState.RUNNING → captured.gc = false → captured.frames = [] →
      TimeCollector.sample_thread_iteration fl thread captured ts = (fl, thread)) ∧
    (thread.state = ThreadState.RUNNING → captured.gc = false → captured.frames ≠ [] →
      TimeCollector.sample_thread_iteration fl thread captured ts =
        ((thread.translator.translate fl captured).2.1,
         { thread with
           translator := (thread.translator.translate fl captured).1
           samples := thread.samples.record_sample
             (thread.translator.translate fl captured).2.2 ts thread.native_tid
             Category.CATEGORY_NORMAL })) ∧
    (thread.state = ThreadState.SUSPENDED →
      TimeCollector.sample_thread_iteration fl thread captured ts =
        (fl, { thread with
          samples := thread.samples.record_sample thread.stack_on_suspend_idx ts
            thread.native_tid Category.CATEGORY_IDLE })) ∧
    (thread.state ≠ ThreadState.RUNNING → thread.state ≠ ThreadState.SUSPENDED →
      TimeCollector.sample_thread_iteration fl thread captured ts = (fl, thread)) := by
  refine ⟨?_, ?_, ?_, ?_, ?_⟩
  · intro h1 h2
    simp [TimeCollector.sample_thread_iteration, h1, h2]
  · intro h1 h2 h3
    simp [TimeCollector.sample_thread_iteration, TimeCollector.record_sample, h1, h2, h3]
  · intro h1 h2 h3
    simp [TimeCollector.sample_thread_iteration, TimeCollector.record_sample, h1, h2, h3]
  · intro h1
    have hr : ¬ thread.state = ThreadState.RUNNING := by rw [h1]; simp
    simp [TimeCollector.sample_thread_iteration, hr, h1]
  · intro h1 h2
    simp [TimeCollector.sample_thread_iteration, h1, h2]

/-- Witness for amended C3: a RUNNING thread with a one-frame non-GC capture
has that capture translated and recorded as NORMAL. -/
theorem spec_C3_witness :
    TimeCollector.sample_thread_iteration FrameList.empty runningThread ⟨[⟨1, 0⟩], false⟩ ⟨5⟩ =
      ((runningThread.translator.translate FrameList.empty ⟨[⟨1, 0⟩], false⟩).2.1,
       { runningThread with
         translator := (runningThread.translator.translate FrameList.empty ⟨[⟨1, 0⟩], false⟩).1
         samples := runningThread.samples.record_sample
           (runningThread.translator.translate FrameList.empty ⟨[⟨1, 0⟩], false⟩).2.2 ⟨5⟩
           runningThread.native_tid Category.CATEGORY_NORMAL }) :=
  (spec_C3 FrameList.empty runningThread ⟨[⟨1, 0⟩], false⟩ ⟨5⟩).2.2.1 rfl rfl (by decide)

/-- Claim C4 counterexample: a SUSPENDED notification arriving for a STOPPED
thread still overwrites its stack-index-at-suspend (the capture is translated
before `Thread::set_state` consults the state), so the record is not
immutable after STOPPED. -/
theorem spec_C4_counterexample :
    stoppedThread.state = ThreadState.STOPPED ∧
    ((ThreadTable.apply_state FrameList.empty stoppedThread ThreadState.SUSPENDED
        ⟨[⟨1, 0⟩], false⟩ ⟨3⟩ 0 0).2).stack_on_suspend_idx ≠
      stoppedThread.stack_on_suspend_idx := by
  decide

/-- Claim C4 as amended: once a thread is STOPPED, later lifecycle
notifications leave its state, state-change timestamp, start/stop timestamps,
markers and samples untouched and reset its pthread/native ids to 0; a
non-SUSPENDED notification changes nothing else (tree included), while a
SUSPENDED notification additionally rewrites stack-index-at-suspend and the
translator (see the counterexample). -/
theorem spec_C4 (fl : FrameList) (t : Thread) (new_state : ThreadState) (captured : RawSample)
    (now : TimeStamp) (sp st : Nat) (h : t.state = ThreadState.STOPPED) :
    (((ThreadTable.apply_state fl t new_state captured now sp st).2).state = t.state ∧
     ((ThreadTable.apply_state fl t new_state captured now sp st).2).state_changed_at =
       t.state_changed_at ∧
     ((ThreadTable.apply_state fl t new_state captured now sp st).2).started_at = t.started_at ∧
     ((ThreadTable.apply_state fl t new_state captured now sp st).2).stopped_at = t.stopped_at ∧
     ((ThreadTable.apply_state fl t new_state captured now sp st).2).markers = t.markers ∧
     ((ThreadTable.apply_state fl t new_state captured now sp st).2).samples = t.samples ∧
     ((ThreadTable.apply_state fl t new_state captured now sp st).2).pthread_id = 0 ∧
     ((ThreadTable.apply_state fl t new_state captured now sp st).2).native_tid = 0) ∧
    (new_state ≠ ThreadState.SUSPENDED →
      ThreadTable.apply_state fl t new_state captured now sp st =
        (fl, { t with pthread_id := 0, native_tid := 0 })) := by
  unfold ThreadTable.apply_state
  by_cases hs : new_state = ThreadState.SUSPENDED
  · rw [if_pos hs]
    dsimp only
    have hset := set_state_stopped
      { t with translator := (t.translator.translate fl captured).1,
               stack_on_suspend_idx := (t.translator.translate fl captured).2.2 }
      new_state now sp st h
    rw [hset]
    rw [if_neg (by simp [h])]
    dsimp only
    exact ⟨⟨rfl, rfl, rfl, rfl, rfl, rfl, rfl, rfl⟩, fun hc => absurd hs hc⟩
  · rw [if_neg hs]
    dsimp only
    rw [set_state_stopped t new_state now sp st h]
    rw [if_neg (by simp [h])]
    dsimp only
    exact ⟨⟨rfl, rfl, rfl, rfl, rfl, rfl, rfl, rfl⟩, fun _ => rfl⟩

/-- Witness for amended C4: a READY notification for a concrete STOPPED
thread only zeroes the native ids. -/
theorem spec_C4_witness :
    (((ThreadTable.apply_state FrameList.empty stoppedThread ThreadState.READY
        ⟨[], false⟩ ⟨9⟩ 5 6).2).state = stoppedThread.state ∧
     ((ThreadTable.apply_state FrameList.empty stoppedThread ThreadState.READY
        ⟨[], false⟩ ⟨9⟩ 5 6).2).state_changed_at = stoppedThread.state_changed_at ∧
     ((ThreadTable.apply_state FrameList.empty stoppedThread ThreadState.READY
        ⟨[], false⟩ ⟨9⟩ 5 6).2).started_at = stoppedThread.started_at ∧
     ((ThreadTable.apply_state FrameList.empty stoppedThread ThreadState.READY
        ⟨[], false⟩ ⟨9⟩ 5 6).2).stopped_at = stoppedThread.stopped_at ∧
     ((ThreadTable.apply_state FrameList.empty stoppedThread ThreadState.READY
        ⟨[], false⟩ ⟨9⟩ 5 6).2).markers = stoppedThread.markers ∧
     ((ThreadTable.apply_state FrameList.empty stoppedThread ThreadState.READY
        ⟨[], false⟩ ⟨9⟩ 5 6).2).samples = stoppedThread.samples ∧
     ((ThreadTable.apply_state FrameList.empty stoppedThread ThreadState.READY
        ⟨[], false⟩ ⟨9⟩ 5 6).2).pthread_id = 0 ∧
     ((ThreadTable.apply_state FrameList.empty stoppedThread ThreadState.READY
        ⟨[], false⟩ ⟨9⟩ 5 6).2).native_tid = 0) ∧
    (ThreadState.READY ≠ ThreadState.SUSPENDED →
      ThreadTable.apply_state FrameList.empty stoppedThread ThreadState.READY
          ⟨[], false⟩ ⟨9⟩ 5 6 =
        (FrameList.empty, { stoppedThread with pthread_id := 0, native_tid := 0 })) :=
  spec_C4 FrameList.empty stoppedThread ThreadState.READY ⟨[], false⟩ ⟨9⟩ 5 6 (by decide)

lemma commonPrefixLen_nil_right (a : List Frame) : commonPrefixLen a [] = 0 := by
  cases a <;> rfl

/-- Translating an empty sample returns the root's index field and resets the
cached prefix to length 0, leaving the tree untouched. -/
lemma translate_empty (t : SampleTranslator) (fl : FrameList) (s : RawSample)
    (hroot : fl.root_stack_node.index = -1) (hs : s.frames = []) :
    t.translate fl s = (⟨-1, [], []⟩, fl, -1) := by
  rw [translate_eq, hs, commonPrefixLen_nil_right]
  simp [walkRecord, FrameList.getNode, hroot]

/-- Claim C10: translating an empty `RawSample` returns `-1` (the root's
index) and resets the cached prefix length to 0; hence a SUSPENDED
notification whose capture is empty stores `-1` as the thread's
stack-index-at-suspend, and a later sampler tick on a SUSPENDED thread whose
stored index is `-1` records an IDLE sample with stack index `-1`. -/
theorem spec_C10 (t : SampleTranslator) (fl : FrameList) (s : RawSample)
    (thread thread2 : Thread) (captured2 : RawSample) (now ts : TimeStamp) (sp st : Nat)
    (hroot : fl.root_stack_node.index = -1) (hs : s.frames = [])
    (hstate2 : thread2.state = ThreadState.SUSPENDED)
    (hidx2 : thread2.stack_on_suspend_idx = -1) :
    t.translate fl s = (⟨-1, [], []⟩, fl, -1) ∧
    ((ThreadTable.apply_state fl thread ThreadState.SUSPENDED s now sp st).2).stack_on_suspend_idx =
      -1 ∧
    TimeCollector.sample_thread_iteration fl thread2 captured2 ts =
      (fl, { thread2 with
        samples := thread2.samples.record_sample (-1) ts thread2.native_tid
          Category.CATEGORY_IDLE }) := by
  refine ⟨translate_empty t fl s hroot hs, ?_, ?_⟩
  · rw [apply_state_suspend_idx, translate_empty thread.translator fl s hroot hs]
  · have hr : ¬ thread2.state = ThreadState.RUNNING := by rw [hstate2]; simp
    rw [← hidx2]
    simp [TimeCollector.sample_thread_iteration, hr, hstate2]

/-- Witness for C10 with a GC-flagged empty capture and a concrete suspended
thread. -/
theorem spec_C10_witness :
    SampleTranslator.init.translate FrameList.empty ⟨[], true⟩ =
      (⟨-1, [], []⟩, FrameList.empty, -1) ∧
    ((ThreadTable.apply_state FrameList.empty suspendedThread ThreadState.SUSPENDED
        ⟨[], true⟩ ⟨9⟩ 3 4).2).stack_on_suspend_idx = -1 ∧
    TimeCollector.sample_thread_iteration FrameList.empty suspendedThread ⟨[], false⟩ ⟨9⟩ =
      (FrameList.empty, { suspendedThread with
        samples := suspendedThread.samples.record_sample (-1) ⟨9⟩ suspendedThread.native_tid
          Category.CATEGORY_IDLE }) :=
  spec_C10 SampleTranslator.init FrameList.empty ⟨[], true⟩ suspendedThread suspendedThread
    ⟨[], false⟩ ⟨9⟩ ⟨9⟩ 3 4 (by decide) (by decide) (by decide) (by decide)

end Vernier
